import Mathlib

/-!
Verification development for the ai_tutor repository.

The repository is a RAG tutoring backend.  The subsystems the claims are
about are embedded shallowly below:

* `AiTutor.Rag` — the chunker and the retrieval function of `src/rag.py`
  (`chunk_text`, `retrieve_chunks`).  Python strings are modelled as
  `List Char`; the regex `(?<=[.!?])\s+` used for sentence splitting is
  modelled by the state machine `ssGo`.
* `AiTutor.Backend` — the Supabase-backed store of `src/backend/main.py`
  (sessions and chat-history turns) together with the operations
  `get_or_create_session`, `save_session_chat_turn`,
  `generate_conversation_summary`, `clear_chat_history`,
  `archive_session`, and the `/api/chat` orchestrator.  Timestamps are
  abstract naturals, the generation service is an explicit
  `String → Option String` argument (`none` models a raised exception),
  and uuid generation is an explicit argument.
* `AiTutor.Auth` — the two authentication dependency functions:
  `get_current_user` of `src/backend/auth.py` and the development
  fallback `get_current_user` of `src/main.py`.  JWT decoding is an
  explicit function argument (`none` models a decode error).
-/

namespace AiTutor

/-- Python strings are modelled as lists of characters. -/
abbrev PyStr := List Char

/-- Coerce a Lean string literal to the `List Char` model. -/
def ofStr (s : String) : PyStr := s.data

/-- The Python whitespace class used by `str.strip`, `str.split` and the
regex class `\s` (ASCII fragment). -/
def pyWs (c : Char) : Bool :=
  c == ' ' || c == '\t' || c == '\n' || c == '\r' || c == '\x0b' || c == '\x0c'

/-- Python `str.lstrip()`. -/
def lstrip (s : PyStr) : PyStr := s.dropWhile pyWs

/-- Python `str.rstrip()`. -/
def rstrip (s : PyStr) : PyStr := (s.reverse.dropWhile pyWs).reverse

/-- Python `str.strip()`. -/
def pstrip (s : PyStr) : PyStr := rstrip (lstrip s)

namespace Rag

/-- The `rag.py` dataclass `TextChunk`. -/
structure TextChunk where
  content : PyStr
  chunk_index : Nat
  start_char : Nat
  end_char : Nat
deriving DecidableEq, Repr

/-- The paragraph separator `"\n\n"` used by `chunk_text`. -/
def paraSep : PyStr := ['\n', '\n']

/-- Python `text.split("\n\n")`: split on non-overlapping occurrences of
the two-newline separator, left to right (`acc` holds the reversed
current piece). -/
def splitParas : List Char → List Char → List PyStr
  | '\n' :: '\n' :: rest, acc => acc.reverse :: splitParas rest []
  | c :: rest, acc => splitParas rest (c :: acc)
  | [], acc => [acc.reverse]

/-- Model of `rag.py` line 35: `[p.strip() for p in text.split("\n\n") if p.strip()]`
applied to the stripped input text. -/
def paragraphs (text : PyStr) : List PyStr :=
  ((splitParas (pstrip text) []).map pstrip).filter (fun p => !p.isEmpty)

/-- The paragraph-accumulation loop of `chunk_text` (`rag.py` lines 37-75).
Arguments mirror the Python locals: the remaining paragraphs, then
`current_chunk`, `current_start`, `chunk_index`. -/
def paraLoop (maxSize overlap : Nat) :
    List PyStr → PyStr → Nat → Nat → List TextChunk
  | [], cur, start, idx =>
      if cur.isEmpty then []
      else [⟨pstrip cur, idx, start, start + cur.length⟩]
  | p :: ps, cur, start, idx =>
      if !cur.isEmpty && decide (cur.length + 2 + p.length > maxSize) then
        ⟨pstrip cur, idx, start, start + cur.length⟩ ::
          (if overlap > 0 && decide (cur.length > overlap) then
            paraLoop maxSize overlap ps
              (cur.drop (cur.length - overlap) ++ paraSep ++ p)
              (start + cur.length - overlap) (idx + 1)
          else
            paraLoop maxSize overlap ps p (start + cur.length) (idx + 1))
      else
        paraLoop maxSize overlap ps
          (if cur.isEmpty then p else cur ++ paraSep ++ p) start idx

/-- Sentence-terminating punctuation of the regex `(?<=[.!?])\s+`. -/
def isPunct (c : Char) : Bool := c == '.' || c == '!' || c == '?'

/-- Whether a string starts with a whitespace character. -/
def headWs : List Char → Bool
  | [] => false
  | c :: _ => pyWs c

/-- Prepend a character to the first piece of a split result. -/
def consHead (c : Char) : List PyStr → List PyStr
  | [] => [[c]]
  | s :: ss => (c :: s) :: ss

/-- State machine for `re.split(r"(?<=[.!?])\s+", s)`.  The flag is true
while consuming the (greedy) whitespace run that follows a sentence
boundary. -/
def ssGo : Bool → List Char → List PyStr
  | _, [] => [[]]
  | skip, c :: rest =>
      if skip && pyWs c then ssGo true rest
      else if isPunct c && headWs rest then [c] :: ssGo true rest
      else consHead c (ssGo false rest)

/-- Model of `rag.py` line 84: `re.split(r"(?<=[.!?])\s+", s)`. -/
def sentSplit (s : PyStr) : List PyStr := ssGo false s

/-- The sentence-accumulation loop of `chunk_text` (`rag.py` lines 89-112).
Arguments mirror the Python locals: the remaining sentences, then
`sub_chunk`, `sub_start`, `sub_index`. -/
def sentLoop (maxSize : Nat) :
    List PyStr → PyStr → Nat → Nat → List TextChunk
  | [], sub, start, idx =>
      if sub.isEmpty then []
      else [⟨pstrip sub, idx, start, start + sub.length⟩]
  | s :: ss, sub, start, idx =>
      if !sub.isEmpty && decide (sub.length + 1 + s.length > maxSize) then
        ⟨pstrip sub, idx, start, start + sub.length⟩ ::
          sentLoop maxSize ss s (start + sub.length) (idx + 1)
      else
        sentLoop maxSize ss
          (if sub.isEmpty then s else sub ++ [' '] ++ s) start idx

/-- Second pass of `chunk_text` (`rag.py` lines 78-112): a chunk that fits
in `maxSize` is kept, an oversized one is re-split by sentences starting
from the parent chunk index and start offset. -/
def splitOversized (maxSize : Nat) (c : TextChunk) : List TextChunk :=
  if c.content.length ≤ maxSize then [c]
  else sentLoop maxSize (sentSplit c.content) [] c.start_char c.chunk_index

/-- First pass of `chunk_text`: the paragraph-phase chunks. -/
def paraChunks (text : PyStr) (maxSize overlap : Nat) : List TextChunk :=
  paraLoop maxSize overlap (paragraphs text) [] 0 0

/-- Model of `rag.py` `chunk_text(text, max_chunk_size, overlap)` (lines 22-114). -/
def chunk_text (text : PyStr) (maxSize overlap : Nat) : List TextChunk :=
  if (pstrip text).isEmpty then []
  else ((paraChunks text maxSize overlap).map (splitOversized maxSize)).flatten

/-- Separator-join used to state the reconstruction property
(`"\n\n".join`-style). -/
def joinSep (sep : PyStr) : List PyStr → PyStr
  | [] => []
  | [p] => p
  | p :: ps => p ++ sep ++ joinSep sep ps

/-- No sentence boundary of the regex occurs inside the string: no
position holds a `[.!?]` character immediately followed by whitespace.
A string with this property is a single indivisible sentence. -/
def noBoundary : List Char → Bool
  | c :: d :: rest => !(isPunct c && pyWs d) && noBoundary (d :: rest)
  | _ => true

/-- A string shaped like a stored paragraph: non-empty, with no leading
and no trailing whitespace (every element of `paragraphs` has this
shape). -/
def goodPara (p : PyStr) : Prop :=
  p ≠ [] ∧ headWs p = false ∧ headWs p.reverse = false

/-- An accumulator value of the paragraph loop: a blank-line join of a
non-empty list of stored paragraphs. -/
def goodJoin (cur : PyStr) : Prop :=
  ∃ g, g ≠ [] ∧ (∀ p ∈ g, goodPara p) ∧ cur = joinSep paraSep g

/-- A stored corpus row of the `chunks` table (`rag.py` lines 142-159):
content plus opaque metadata; the embedding column is abstracted by the
distance function passed to `retrieve_chunks`. -/
structure DbChunk where
  id : Nat
  content : String
  metadata : String
deriving DecidableEq, Repr

/-- A retrieval result row of `retrieve_chunks`. -/
structure RetrievedChunk where
  id : Nat
  content : String
  metadata : String
  similarity_score : ℚ
deriving DecidableEq, Repr

/-- Insertion into a list sorted by ascending key (model of the SQL
`ORDER BY embedding <=> query`). -/
def insertByKey {α : Type} (key : α → ℚ) (x : α) : List α → List α
  | [] => [x]
  | y :: ys => if key x ≤ key y then x :: y :: ys else y :: insertByKey key x ys

/-- Sort by ascending key (model of the SQL `ORDER BY`). -/
def sortByKey {α : Type} (key : α → ℚ) : List α → List α
  | [] => []
  | x :: xs => insertByKey key x (sortByKey key xs)

/-- Model of `rag.py` `retrieve_chunks(query, top_k)` (lines 161-195).  The SQL
query orders the whole corpus by ascending cosine distance to the query
embedding, limits to `top_k` rows, and reports
`similarity_score = 1 - distance`.  The database cosine-distance operator
`embedding <=> query` is abstracted by `dist`; scores are rationals.
Note the function has no similarity-threshold parameter. -/
def retrieve_chunks (corpus : List DbChunk) (dist : DbChunk → ℚ)
    (top_k : Nat) : List RetrievedChunk :=
  ((sortByKey dist corpus).take top_k).map
    (fun c => ⟨c.id, c.content, c.metadata, 1 - dist c⟩)

end Rag

namespace Backend

/-- A row of the `chat_history` table (`src/backend/main.py` lines
156-162).  Creation order is the list order of `Store.chat_history`
(`created_at` ascending). -/
structure Turn where
  user_id : String
  session_id : String
  role : String
  message : String
deriving DecidableEq, Repr

/-- A row of the `chat_sessions` table (`src/backend/main.py` lines
92-104).  Timestamps are abstract naturals. -/
structure Session where
  id : String
  user_id : String
  exam_id : String
  subject_id : String
  chapter_id : String
  session_name : String
  status : String
  message_count : Nat
  conversation_summary : Option String
  created_at : Nat
  updated_at : Nat
  started_at : Nat
  last_summarized_at : Option Nat
deriving DecidableEq, Repr

/-- The persistent store: the two tables the chat subsystem uses.  Rows
are kept in insertion order. -/
structure Store where
  chat_sessions : List Session
  chat_history : List Turn
deriving DecidableEq, Repr

/-- The turns of one session, oldest first
(`.eq("session_id", sid).order("created_at", desc=False)`). -/
def sessionTurns (st : Store) (sid : String) : List Turn :=
  st.chat_history.filter (fun t => t.session_id == sid)

/-- The `role = "user"` turns of one session. -/
def userTurns (st : Store) (sid : String) : List Turn :=
  st.chat_history.filter (fun t => t.session_id == sid && t.role == "user")

/-- Lookup `.eq("id", sid).single()` on `chat_sessions`: the first row with the
given id, if any. -/
def findSession (st : Store) (sid : String) : Option Session :=
  st.chat_sessions.find? (fun s => s.id == sid)

/-- The row predicate of the active-session lookup of
`get_or_create_session` (`src/backend/main.py` lines 75-80): the filter
is on `(user_id, chapter_id, status = "active")` only — `exam_id` and
`subject_id` are not part of it. -/
def sessionPred (user_id chapter_id : String) (s : Session) : Bool :=
  s.user_id == user_id && s.chapter_id == chapter_id && s.status == "active"

/-- The active-session lookup of `get_or_create_session`. -/
def activeChapterSessions (st : Store) (user_id chapter_id : String) :
    List Session :=
  st.chat_sessions.filter (sessionPred user_id chapter_id)

/-- Row update of `update({"updated_at": now}).eq("id", sid)`. -/
def touchF (sid : String) (now : Nat) (s : Session) : Session :=
  if s.id == sid then { s with updated_at := now } else s

/-- Update `updated_at` by id on `chat_sessions`. -/
def touchSession (st : Store) (sid : String) (now : Nat) : Store :=
  { st with chat_sessions := st.chat_sessions.map (touchF sid now) }

/-- Modelled from the spec: the store-side atomic counter RPC
`increment_session_message_count` (called at `src/backend/main.py` line
166) is a database function that is not part of the repository sources;
the spec lists atomic counters among the store capabilities.  It adds one
to `message_count` of the addressed session row. -/
def incF (sid : String) (s : Session) : Session :=
  if s.id == sid then { s with message_count := s.message_count + 1 } else s

/-- The counter RPC applied to the store. -/
def increment_session_message_count (st : Store) (sid : String) : Store :=
  { st with chat_sessions := st.chat_sessions.map (incF sid) }

/-- Model of `src/backend/main.py` `get_or_create_session` (lines 70-113).  `now`
stands for `datetime.now()`, `newId` for the generated `uuid.uuid4()`.
Returns the updated store and the session id the endpoint goes on to
use. -/
def get_or_create_session (now : Nat) (st : Store)
    (user_id exam_id subject_id chapter_id
      exam_name subject_name chapter_name newId : String) : Store × String :=
  match activeChapterSessions st user_id chapter_id with
  | s :: _ => (touchSession st s.id now, s.id)
  | [] =>
      let newSession : Session :=
        { id := newId
          user_id := user_id
          exam_id := exam_id
          subject_id := subject_id
          chapter_id := chapter_id
          session_name := chapter_name ++ " - " ++ toString now
          status := "active"
          message_count := 0
          conversation_summary := none
          created_at := now
          updated_at := now
          started_at := now
          last_summarized_at := none }
      ({ st with chat_sessions := st.chat_sessions ++ [newSession] }, newId)

/-- Row update storing the generated summary
(`src/backend/main.py` lines 279-285). -/
def summF (sid : String) (summary : String) (now : Nat) (s : Session) :
    Session :=
  if s.id == sid then
    { s with conversation_summary := some summary,
             last_summarized_at := some now }
  else s

/-- Store the generated summary on the session row. -/
def setSummary (st : Store) (sid : String) (summary : String) (now : Nat) :
    Store :=
  { st with chat_sessions := st.chat_sessions.map (summF sid summary now) }

/-- The newline join of "role: message" lines over the messages to summarize
(`src/backend/main.py` lines 244-247). -/
def formatTurns (msgs : List Turn) : String :=
  String.intercalate "\n" (msgs.map (fun m => m.role ++ ": " ++ m.message))

/-- The summarization prompt built around the conversation text
(`src/backend/main.py` lines 250-261; instructional wording
abbreviated — it is constant text fed to the abstract generation
service). -/
def summary_prompt (conversation_text : String) : String :=
  "You are summarizing a tutoring conversation for memory optimization.\n\nConversation to summarize:\n"
    ++ conversation_text
    ++ "\n\nCreate a concise summary (3-5 sentences) that captures the main topics, the student understanding level, key concepts explained, and areas of difficulty."

/-- The Python slice `all_messages[start_index:end_index]`. -/
def sliceRange {α : Type} (l : List α) (start stop : Nat) : List α :=
  (l.drop start).take (stop - start)

/-- Model of `src/backend/main.py` `generate_conversation_summary` (lines
216-291).  `llm` is the generation service; `none` models a raised
exception, in which case the `except` block returns `None` and the store
is untouched.  An empty slice also skips the update (lines 239-241). -/
def generate_conversation_summary (llm : String → Option String) (now : Nat)
    (st : Store) (session_id : String) (start_index end_index : Nat) :
    Store × Option String :=
  if (sliceRange (sessionTurns st session_id) start_index end_index).isEmpty
  then (st, none)
  else
    match llm (summary_prompt (formatTurns
        (sliceRange (sessionTurns st session_id) start_index end_index))) with
    | none => (st, none)
    | some summary => (setSummary st session_id summary now, some summary)

/-- The auto-summarization trigger that runs after an assistant turn is
saved (`src/backend/main.py` lines 173-196): re-read `message_count` and
summarize the range `[max(0, count-16), count-6)` whenever the count is
a positive multiple of 10 (note `Nat` subtraction is the `max(0, ...)`
clamp of line 190).  A missing session row makes the `.single()` lookup
raise, which the inner `except` swallows (lines 194-196), so the save
still succeeds without summarizing. -/
def maybeSummarize (llm : String → Option String) (now : Nat) (st : Store)
    (session_id : String) : Store :=
  match findSession st session_id with
  | none => st
  | some s =>
      if s.message_count > 0 && s.message_count % 10 == 0 then
        (generate_conversation_summary llm now st session_id
          (s.message_count - 16) (s.message_count - 6)).1
      else st

/-- Model of `src/backend/main.py` `save_session_chat_turn` (lines 152-199):
insert the turn, bump `message_count` for user turns, touch
`updated_at`, and after an assistant turn run the auto-summarization
trigger `maybeSummarize`. -/
def save_session_chat_turn (llm : String → Option String) (now : Nat)
    (st : Store) (user_id session_id role message : String) : Store :=
  let st1 : Store :=
    { st with chat_history :=
        st.chat_history ++ [⟨user_id, session_id, role, message⟩] }
  let st2 := if role == "user"
    then increment_session_message_count st1 session_id else st1
  let st3 := touchSession st2 session_id now
  if role == "assistant" then maybeSummarize llm now st3 session_id else st3

/-- Model of `src/backend/main.py` `get_session_chat_history` (lines 115-150):
the last `limit` turns of the session in chronological order, plus the
session summary.  A missing session row makes `.single()` raise and the
whole function degrade to no messages and no summary. -/
def get_session_chat_history (st : Store) (sid : String) (limit : Nat) :
    List Turn × Option String :=
  match findSession st sid with
  | none => ([], none)
  | some s =>
      let ms := sessionTurns st sid
      (ms.drop (ms.length - limit), s.conversation_summary)

/-- Row update of the session-scoped clear: reset the counter and touch
`updated_at` (`src/backend/main.py` lines 600-603). -/
def resetF (sid : String) (now : Nat) (s : Session) : Session :=
  if s.id == sid then { s with message_count := 0, updated_at := now } else s

/-- Model of `src/backend/main.py` `/api/chat/clear` (lines 589-610).  With a
session id: delete that session's turns and reset its counter.  Without
one (legacy branch): delete every turn of the user across all sessions —
session rows, including their `message_count`, are left untouched. -/
def clear_chat_history (now : Nat) (st : Store) (user_id : String) :
    Option String → Store
  | some sid =>
      { chat_sessions := st.chat_sessions.map (resetF sid now)
        chat_history :=
          st.chat_history.filter (fun t => !(t.session_id == sid)) }
  | none =>
      { st with chat_history :=
                  st.chat_history.filter (fun t => !(t.user_id == user_id)) }

/-- Row update of archiving (`src/backend/main.py` lines 641-644). -/
def archF (sid : String) (now : Nat) (s : Session) : Session :=
  if s.id == sid then { s with status := "archived", updated_at := now }
  else s

/-- Model of `src/backend/main.py` `/api/sessions/.../archive` (lines 625-650):
verify the session belongs to the user, then set its status to
archived. -/
def archive_session (now : Nat) (st : Store) (user_id session_id : String) :
    Store :=
  match st.chat_sessions.find?
      (fun s => s.id == session_id && s.user_id == user_id) with
  | none => st
  | some _ =>
      { st with chat_sessions := st.chat_sessions.map (archF session_id now) }

/-- Forget the activity timestamp of a session row; used to state that
an operation changes nothing but `updated_at`. -/
def stripUpdated (s : Session) : Session := { s with updated_at := 0 }

/-- The `message_count` relationship invariant of the spec (§3): every
session's counter equals the number of its `role = "user"` turns. -/
def mcInv (st : Store) : Prop :=
  ∀ s ∈ st.chat_sessions, s.message_count = (userTurns st s.id).length

instance (st : Store) : Decidable (mcInv st) :=
  inferInstanceAs (Decidable (∀ s ∈ st.chat_sessions, _))

/-- The `/api/chat` request body (`src/backend/main.py` lines 55-65).
`images` and `accessibility_settings` are omitted: they only rewrite the
generated answer text (lines 552-559) and no claim depends on them. -/
structure ChatRequest where
  question : String
  exam_id : Option String
  subject_id : Option String
  chapter_id : Option String
  exam_name : Option String
  subject_name : Option String
  chapter_name : Option String
deriving DecidableEq, Repr

/-- Python truthiness of an optional string field: present and
non-empty. -/
def truthy : Option String → Bool
  | none => false
  | some s => !(s == "")

/-- The validation of line 464: `all([...])` over the six scope fields
(an empty string is falsy and also fails validation). -/
def validReq (req : ChatRequest) : Bool :=
  truthy req.exam_id && truthy req.subject_id && truthy req.chapter_id
    && truthy req.exam_name && truthy req.subject_name
    && truthy req.chapter_name

/-- A row returned by the store-side `match_chunks` RPC; only `content`
is consumed (line 510). -/
structure ChunkRow where
  content : String
deriving DecidableEq, Repr

/-- History rendering of `/api/chat` step 4 (lines 519-527). -/
def formatHistory (messages : List Turn) (summary : Option String) : String :=
  let parts : List String :=
    (match summary with
      | some s => ["[Previous Conversation Summary]\n" ++ s ++ "\n"]
      | none => [])
    ++ (if messages.isEmpty then []
        else "[Recent Messages]"
          :: messages.map (fun m => m.role ++ ": " ++ m.message))
  String.intercalate "\n" parts

/-- Model of `get_dynamic_socratic_prompt(...).format(history, context, question)`
(lines 370-456 and 530-536): the rendered prompt with the three
substitutions; the constant instructional wording is abbreviated since
it is opaque to the generation service argument. -/
def socraticPrompt (exam_name subject_name chapter_name
    history context question : String) : String :=
  "You are Newton, an expert AI Socratic tutor for " ++ exam_name ++ " "
    ++ subject_name ++ ", chapter " ++ chapter_name
    ++ ".\n\nPrevious Conversation:\n" ++ history
    ++ "\n\nRelevant Course Material:\n" ++ context
    ++ "\n\nStudent Question:\n" ++ question

/-- The outcome of a `/api/chat` request: the answer payload or an error
payload (both HTTP-level error returns and raised `HTTPException`s are
error outcomes). -/
inductive ChatResult where
  | answer (text : String)
  | error (msg : String)
deriving DecidableEq, Repr

/-- The fixed user-facing failure message of the LLM stage (lines
562-566, abbreviated). -/
def llmFailureMessage : String :=
  "I had trouble understanding your question. Could you try rephrasing it?"

/-- Steps 3-5 of `/api/chat` after the store query succeeded: join the
chunk contents with blank lines into the context (line 510), fetch the
session history and summary (steps 4), and render the Socratic prompt
(step 5).  `st1` is the store after session resolution, `session_id` the
resolved session. -/
def chatPrompt (st1 : Store) (req : ChatRequest) (session_id : String)
    (chunks : List ChunkRow) : String :=
  socraticPrompt (req.exam_name.getD "") (req.subject_name.getD "")
    (req.chapter_name.getD "")
    (formatHistory (get_session_chat_history st1 session_id 6).1
      (get_session_chat_history st1 session_id 6).2)
    (String.intercalate "\n\n" (chunks.map ChunkRow.content))
    req.question

/-- Model of `src/backend/main.py` `/api/chat` (lines 459-572).  External effects
are explicit arguments: `llm` is the summarization generation service
used inside turn saving, `gen` the answer generation call of step 6
applied to the built prompt (`none` models a raised exception),
`embedResult` the outcome of step 2 after its model fallback, and
`matchResult` the outcome of the `match_chunks` store query of step 3
(`Except.error` models a raised exception; `data or []` is already
folded into the payload).  On generation success the user turn and then
the assistant turn are saved (step 7). -/
def chat (llm gen : String → Option String) (now : Nat) (st : Store)
    (user_id : String) (req : ChatRequest) (newSessionId : String)
    (embedResult : Option (List Int))
    (matchResult : Except String (List ChunkRow)) : Store × ChatResult :=
  if !validReq req then (st, .error "Missing required session parameters")
  else
    let r1 := get_or_create_session now st user_id
      (req.exam_id.getD "") (req.subject_id.getD "") (req.chapter_id.getD "")
      (req.exam_name.getD "") (req.subject_name.getD "")
      (req.chapter_name.getD "") newSessionId
    let st1 := r1.1
    let session_id := r1.2
    match embedResult with
    | none => (st1, .error "Embedding failed")
    | some _ =>
        match matchResult with
        | .error e => (st1, .error ("Chunk search failed: " ++ e))
        | .ok chunks =>
            match gen (chatPrompt st1 req session_id chunks) with
            | none => (st1, .error llmFailureMessage)
            | some answer =>
                let st2 := save_session_chat_turn llm now st1 user_id
                  session_id "user" req.question
                let st3 := save_session_chat_turn llm now st2 user_id
                  session_id "assistant" answer
                (st3, .answer answer)

/-- A concrete session row for the concrete instances in the theorems
below. -/
def sampleSession : Session :=
  { id := "s1", user_id := "u1", exam_id := "e1", subject_id := "sb1",
    chapter_id := "ch1", session_name := "n1", status := "active",
    message_count := 0, conversation_summary := none, created_at := 0,
    updated_at := 0, started_at := 0, last_summarized_at := none }

/-- A concrete store holding one fresh session and no turns. -/
def sampleStore : Store := ⟨[sampleSession], []⟩

/-- A concrete valid `/api/chat` request body. -/
def sampleReq : ChatRequest :=
  ⟨"what is a matrix", some "e1", some "sb1", some "ch1", some "JEE",
    some "Math", some "Matrices"⟩

/-- The session-resolution result of `sampleReq` against the empty
store. -/
def sampleSess : Store × String :=
  get_or_create_session 0 ⟨[], []⟩ "u1" "e1" "sb1" "ch1" "JEE" "Math"
    "Matrices" "sid1"

/-- Nineteen turns of a session named "s1": nine full user/assistant
exchanges followed by a tenth user question — the state right before the
tenth assistant reply is saved. -/
def c1Turns : List Turn :=
  ((List.range 9).map (fun i =>
      [(⟨"u1", "s1", "user", "q" ++ toString (i + 1)⟩ : Turn),
       (⟨"u1", "s1", "assistant", "a" ++ toString (i + 1)⟩ : Turn)])).flatten
    ++ [⟨"u1", "s1", "user", "q10"⟩]

/-- The store right before the tenth assistant reply is saved: the
session counter already reads 10 (it is bumped by the user-turn save). -/
def c1Store : Store :=
  ⟨[{ sampleSession with message_count := 10 }], c1Turns⟩

end Backend

namespace Auth

/-- The decoded JWT payload fields the handlers read. -/
structure JwtClaims where
  sub : Option String
  user_id : Option String
deriving DecidableEq, Repr

/-- Outcome of an authentication dependency: either the request is
rejected before any downstream work (an `HTTPException` with a status
code), or it proceeds under a user identifier. -/
inductive AuthOutcome where
  | rejected (status : Nat) (detail : String)
  | user (id : String)
deriving DecidableEq, Repr

/-- Word accumulator for Python `str.split()` with no separator: split on
whitespace runs, discarding empty pieces (`cur` holds the reversed
current word). -/
def wsWords (cur : List Char) : List Char → List PyStr
  | [] => if cur.isEmpty then [] else [cur.reverse]
  | c :: rest =>
      if pyWs c then
        if cur.isEmpty then wsWords [] rest else cur.reverse :: wsWords [] rest
      else wsWords (c :: cur) rest

/-- Python `authorization.split()` on a header string. -/
def pySplitWs (s : String) : List String :=
  (wsWords [] s.data).map (fun w => String.mk w)

/-- Python `str.lower()` (ASCII). -/
def pyLower (s : String) : String := String.mk (s.data.map Char.toLower)

/-- Python `str.startswith(pre)`. -/
def pyStartsWith (s pre : String) : Bool := pre.data.isPrefixOf s.data

/-- Accumulator for Python `str.split(sep)` with a one-character
separator: split at every separator occurrence, keeping empty pieces. -/
def splitCharAux (sep : Char) (cur : List Char) :
    List Char → List (List Char)
  | [] => [cur.reverse]
  | c :: rest =>
      if c == sep then cur.reverse :: splitCharAux sep [] rest
      else splitCharAux sep (c :: cur) rest

/-- Python `str.split(" ")`. -/
def pySplitSpace (s : String) : List String :=
  (splitCharAux ' ' [] s.data).map (fun w => String.mk w)

/-- Python `a or b` over optional strings: an empty string is falsy and
falls through to `b`. -/
def pyOr (a b : Option String) : Option String :=
  match a with
  | some s => if s == "" then b else some s
  | none => b

/-- Model of `src/backend/auth.py` `get_current_user` (lines 15-52).  `secret` is
`SUPABASE_JWT_SECRET`; `decodeVerified token secret` models
`jwt.decode(token, secret, algorithms=["HS256"], ...)` and
`decodeUnverified token` the signature-free dev decode, with `none`
modelling a raised `PyJWTError`.  An empty header makes `parts[0]` raise
`IndexError`, which FastAPI surfaces as a 500 — still a rejection before
any downstream work. -/
def backendGetCurrentUser (secret : Option String)
    (decodeVerified : String → String → Option JwtClaims)
    (decodeUnverified : String → Option JwtClaims)
    (authorization : Option String) : AuthOutcome :=
  match authorization with
  | none => .rejected 401 "Authorization header missing"
  | some a =>
      match pySplitWs a with
      | [] => .rejected 500 "IndexError"
      | p0 :: rest =>
          if !(pyLower p0 == "bearer") || !((p0 :: rest).length == 2) then
            .rejected 401 "Invalid authorization header"
          else
            let token := (p0 :: rest)[1]?.getD ""
            let decoded := match secret with
              | some k => decodeVerified token k
              | none => decodeUnverified token
            match decoded with
            | none => .rejected 401 "Invalid token"
            | some claims =>
                match pyOr claims.sub claims.user_id with
                | none => .rejected 401 "Token missing user id"
                | some u =>
                    if u == "" then .rejected 401 "Token missing user id"
                    else .user u

/-- The hardcoded development identifier of `src/main.py` line 50. -/
def fallbackUserId : String := "06fb2f05-131e-47c1-8b75-3e393738e87c"

/-- Model of `src/main.py` `get_current_user` (lines 38-50): try to decode the
bearer token without verification and return its `sub`; on a missing
header, a non-bearer header, a decode failure or a missing `sub` key it
falls back to the hardcoded development user id instead of rejecting. -/
def mainGetCurrentUser (decodeUnverified : String → Option JwtClaims)
    (authorization : Option String) : AuthOutcome :=
  match authorization with
  | some a =>
      if pyStartsWith a "Bearer " then
        let token := (pySplitSpace a)[1]?.getD ""
        match decodeUnverified token with
        | some claims =>
            match claims.sub with
            | some u => .user u
            | none => .user fallbackUserId
        | none => .user fallbackUserId
      else .user fallbackUserId
  | none => .user fallbackUserId

/-- A concrete verified-decode function for the concrete instances
below: it accepts exactly the token "tok123" under the secret "k1" and
yields a payload whose subject is "u42". -/
def sampleDecode : String → String → Option JwtClaims :=
  fun t k =>
    if t == "tok123" && k == "k1" then some ⟨some "u42", none⟩ else none

/-- A decode function that always fails (models any unverifiable
token). -/
def noDecode : String → Option JwtClaims := fun _ => none

end Auth

/-! ## Helper lemmas -/

namespace Backend

theorem filter_map_of_pred {α : Type} (p : α → Bool) (f : α → α)
    (h : ∀ x, p (f x) = p x) (l : List α) :
    (l.map f).filter p = (l.filter p).map f := by
  induction l with
  | nil => rfl
  | cons x xs ih =>
      simp only [List.map_cons, List.filter_cons, h x]
      cases p x <;> simp [ih]

theorem sessionPred_touchF (u ch sid : String) (now : Nat) (s : Session) :
    sessionPred u ch (touchF sid now s) = sessionPred u ch s := by
  unfold sessionPred touchF
  split <;> rfl

theorem touchF_id (sid : String) (now : Nat) (s : Session) :
    (touchF sid now s).id = s.id := by
  unfold touchF
  split <;> rfl

theorem stripUpdated_touchF (sid : String) (now : Nat) (s : Session) :
    stripUpdated (touchF sid now s) = stripUpdated s := by
  unfold stripUpdated touchF
  split <;> rfl

theorem activeChapterSessions_touch (st : Store) (u ch sid : String)
    (now : Nat) :
    activeChapterSessions (touchSession st sid now) u ch
      = (activeChapterSessions st u ch).map (touchF sid now) := by
  unfold activeChapterSessions touchSession
  exact filter_map_of_pred _ _ (sessionPred_touchF u ch sid now)
    st.chat_sessions

theorem map_stripUpdated_touch (sid : String) (now : Nat)
    (l : List Session) :
    (l.map (touchF sid now)).map stripUpdated = l.map stripUpdated := by
  rw [List.map_map]
  apply List.map_congr_left
  intro x _
  exact stripUpdated_touchF sid now x

end Backend

/-! ## C6 — session idempotence -/

open Backend in
/-- C6: calling `get_or_create_session` twice in immediate succession for
the same user and topic scope, with no archiving in between and no
concurrency (the two calls are sequenced on the store), returns the same
session id both times, and the second call inserts nothing: it leaves
the turn table untouched and changes at most the `updated_at` timestamp
of session rows. -/
theorem C6_session_idempotent (now1 now2 : Nat) (st : Store)
    (u e s ch en sn cn n1 n2 : String) :
    (get_or_create_session now2
        (get_or_create_session now1 st u e s ch en sn cn n1).1
        u e s ch en sn cn n2).2
      = (get_or_create_session now1 st u e s ch en sn cn n1).2
    ∧ (get_or_create_session now2
        (get_or_create_session now1 st u e s ch en sn cn n1).1
        u e s ch en sn cn n2).1.chat_history
      = (get_or_create_session now1 st u e s ch en sn cn n1).1.chat_history
    ∧ (get_or_create_session now2
        (get_or_create_session now1 st u e s ch en sn cn n1).1
        u e s ch en sn cn n2).1.chat_sessions.map stripUpdated
      = (get_or_create_session now1 st u e s ch en sn cn n1).1.chat_sessions.map
          stripUpdated := by
  unfold get_or_create_session
  cases h : activeChapterSessions st u ch with
  | cons s0 rest =>
      rw [activeChapterSessions_touch, h]
      simp only [List.map_cons, touchF_id, touchSession]
      exact ⟨trivial, trivial, map_stripUpdated_touch _ _ _⟩
  | nil =>
      have hnew : activeChapterSessions
          { st with chat_sessions := st.chat_sessions ++
              [{ id := n1, user_id := u, exam_id := e, subject_id := s,
                 chapter_id := ch,
                 session_name := cn ++ " - " ++ toString now1,
                 status := "active", message_count := 0,
                 conversation_summary := none, created_at := now1,
                 updated_at := now1, started_at := now1,
                 last_summarized_at := none }] } u ch
          = [{ id := n1, user_id := u, exam_id := e, subject_id := s,
               chapter_id := ch,
               session_name := cn ++ " - " ++ toString now1,
               status := "active", message_count := 0,
               conversation_summary := none, created_at := now1,
               updated_at := now1, started_at := now1,
               last_summarized_at := none }] := by
        unfold activeChapterSessions at h ⊢
        rw [List.filter_append, h]
        simp [sessionPred]
      rw [hnew]
      simp only [touchSession]
      exact ⟨trivial, trivial, map_stripUpdated_touch _ _ _⟩

/-! ## C10 — the session lookup ignores exam and subject -/

open Backend in
/-- C10: the existing-session lookup filters only on
`(user_id, chapter_id, status = "active")`, so when a user with no
active session for a chapter first asks under one (exam, subject) scope
and then asks again under a different exam and subject but the same
chapter, the second request resolves to the session the first one
created: it gets the same session id back and inserts no new session
row. -/
theorem C10_lookup_ignores_exam_subject (now1 now2 : Nat) (st : Store)
    (u ch e1 s1 e2 s2 en1 sn1 cn1 en2 sn2 cn2 n1 n2 : String)
    (h : activeChapterSessions st u ch = []) :
    (get_or_create_session now1 st u e1 s1 ch en1 sn1 cn1 n1).2 = n1
    ∧ (get_or_create_session now2
        (get_or_create_session now1 st u e1 s1 ch en1 sn1 cn1 n1).1
        u e2 s2 ch en2 sn2 cn2 n2).2 = n1
    ∧ (get_or_create_session now2
        (get_or_create_session now1 st u e1 s1 ch en1 sn1 cn1 n1).1
        u e2 s2 ch en2 sn2 cn2 n2).1.chat_sessions.length
      = (get_or_create_session now1 st u e1 s1 ch en1 sn1 cn1 n1).1.chat_sessions.length := by
  unfold get_or_create_session
  rw [h]
  have hnew : activeChapterSessions
      { st with chat_sessions := st.chat_sessions ++
          [{ id := n1, user_id := u, exam_id := e1, subject_id := s1,
             chapter_id := ch, session_name := cn1 ++ " - " ++ toString now1,
             status := "active", message_count := 0,
             conversation_summary := none, created_at := now1,
             updated_at := now1, started_at := now1,
             last_summarized_at := none }] } u ch
      = [{ id := n1, user_id := u, exam_id := e1, subject_id := s1,
           chapter_id := ch, session_name := cn1 ++ " - " ++ toString now1,
           status := "active", message_count := 0,
           conversation_summary := none, created_at := now1,
           updated_at := now1, started_at := now1,
           last_summarized_at := none }] := by
    unfold activeChapterSessions at h ⊢
    rw [List.filter_append, h]
    simp [sessionPred]
  rw [hnew]
  simp [touchSession]

/-! ## C7 — the message-count invariant -/

namespace Backend

theorem incF_id (sid : String) (s : Session) : (incF sid s).id = s.id := by
  unfold incF; split <;> rfl

theorem touchSession_history (st : Store) (sid : String) (now : Nat) :
    (touchSession st sid now).chat_history = st.chat_history := rfl

theorem inc_history (st : Store) (sid : String) :
    (increment_session_message_count st sid).chat_history
      = st.chat_history := rfl

theorem touchF_count (sid : String) (now : Nat) (s : Session) :
    (touchF sid now s).message_count = s.message_count := by
  unfold touchF; split <;> rfl

theorem summF_id (sid summary : String) (now : Nat) (s : Session) :
    (summF sid summary now s).id = s.id := by
  unfold summF; split <;> rfl

theorem summF_count (sid summary : String) (now : Nat) (s : Session) :
    (summF sid summary now s).message_count = s.message_count := by
  unfold summF; split <;> rfl

theorem archF_id (sid : String) (now : Nat) (s : Session) :
    (archF sid now s).id = s.id := by
  unfold archF; split <;> rfl

theorem archF_count (sid : String) (now : Nat) (s : Session) :
    (archF sid now s).message_count = s.message_count := by
  unfold archF; split <;> rfl

theorem filter_append_singleton {α : Type} (p : α → Bool) (l : List α)
    (x : α) :
    (l ++ [x]).filter p = l.filter p ++ if p x then [x] else [] := by
  rw [List.filter_append]
  cases h : p x <;> simp [List.filter, h]

/-- Transport of the invariant along a store change that maps session
rows by an id- and count-preserving function and keeps the history. -/
theorem mcInv_congr (st st' : Store) (f : Session → Session)
    (hs : st'.chat_sessions = st.chat_sessions.map f)
    (hid : ∀ s, (f s).id = s.id)
    (hc : ∀ s, (f s).message_count = s.message_count)
    (hh : st'.chat_history = st.chat_history) :
    mcInv st → mcInv st' := by
  intro h s' hmem
  rw [hs] at hmem
  obtain ⟨s, hsm, rfl⟩ := List.mem_map.1 hmem
  rw [hc, hid]
  unfold userTurns
  rw [hh]
  exact h s hsm

/-- The summarization step never changes counters or turns. -/
theorem mcInv_gcs (llm : String → Option String) (now : Nat) (st : Store)
    (sid : String) (a b : Nat) :
    mcInv st →
    mcInv (generate_conversation_summary llm now st sid a b).1 := by
  intro h
  unfold generate_conversation_summary
  split
  · exact h
  · split
    · exact h
    · exact mcInv_congr st _ (summF sid _ now) rfl (summF_id sid _ now)
        (summF_count sid _ now) rfl h

/-- Inserting a non-user turn and touching the session keeps the
invariant: neither the counters nor the user-turn sets change. -/
theorem mcInv_turn_touch (now : Nat) (st : Store) (u sid role msg : String)
    (hru : (role == "user") = false) (h : mcInv st) :
    mcInv (touchSession
      { st with chat_history := st.chat_history ++ [⟨u, sid, role, msg⟩] }
      sid now) := by
  intro s' hmem
  simp only [touchSession, List.mem_map] at hmem
  obtain ⟨s, hsm, rfl⟩ := hmem
  have hb := h s hsm
  unfold userTurns at hb ⊢
  simp only [touchF_id, touchF_count, touchSession_history,
    filter_append_singleton]
  rw [hru]
  simp [hb]

/-- Inserting a user turn, bumping the counter and touching the session
keeps the invariant. -/
theorem mcInv_user_turn (now : Nat) (st : Store) (u sid msg : String)
    (h : mcInv st) :
    mcInv (touchSession (increment_session_message_count
      { st with chat_history := st.chat_history ++ [⟨u, sid, "user", msg⟩] }
      sid) sid now) := by
  intro s' hmem
  simp only [touchSession, increment_session_message_count, List.map_map,
    List.mem_map] at hmem
  obtain ⟨s, hsm, rfl⟩ := hmem
  have hb := h s hsm
  unfold userTurns at hb ⊢
  simp only [Function.comp_apply, touchF_id, touchF_count, incF_id,
    touchSession_history, inc_history, filter_append_singleton]
  by_cases hc : s.id = sid
  · subst hc
    simp [incF, hb]
  · have hcb : (s.id == sid) = false := beq_eq_false_iff_ne.2 hc
    have hcb2 : (sid == s.id) = false :=
      beq_eq_false_iff_ne.2 (fun hx => hc hx.symm)
    simp [incF, hcb, hcb2, hb]

/-- Saving a turn preserves the invariant: a user turn bumps exactly the
counter of the session receiving the turn, a non-user turn touches
neither side of the invariant, and summarization only rewrites the
summary column. -/
theorem mcInv_save (llm : String → Option String) (now : Nat) (st : Store)
    (u sid role msg : String) (h : mcInv st) :
    mcInv (save_session_chat_turn llm now st u sid role msg) := by
  have hms : ∀ st2 : Store, mcInv st2 →
      ∀ sid2, mcInv (maybeSummarize llm now st2 sid2) := by
    intro st2 h2 sid2
    unfold maybeSummarize
    split
    · exact h2
    · split
      · exact mcInv_gcs llm now _ sid2 _ _ h2
      · exact h2
  unfold save_session_chat_turn
  by_cases hr : role = "user"
  · subst hr
    exact mcInv_user_turn now st u sid msg h
  · have hrb : (role == "user") = false := beq_eq_false_iff_ne.2 hr
    have base := mcInv_turn_touch now st u sid role msg hrb h
    by_cases ha : role = "assistant"
    · subst ha
      exact hms _ base sid
    · have hab : (role == "assistant") = false := beq_eq_false_iff_ne.2 ha
      simp only [hrb, hab, Bool.false_eq_true, if_false]
      exact base

/-- The session-scoped clear preserves the invariant. -/
theorem mcInv_clear_session (now : Nat) (st : Store) (u sid : String)
    (h : mcInv st) :
    mcInv (clear_chat_history now st u (some sid)) := by
  intro s' hmem
  unfold clear_chat_history at hmem ⊢
  simp only [List.mem_map] at hmem
  obtain ⟨s, hsm, rfl⟩ := hmem
  have hb := h s hsm
  unfold userTurns at hb ⊢
  simp only [resetF]
  by_cases hc : s.id = sid
  · subst hc
    have hnil : (st.chat_history.filter
        (fun t => !(t.session_id == s.id))).filter
          (fun t => t.session_id == s.id && t.role == "user") = [] := by
      apply List.filter_eq_nil_iff.2
      intro t htm
      have := List.of_mem_filter htm
      cases ht : (t.session_id == s.id) <;> simp_all
    simp [hnil]
  · have hcb : (s.id == sid) = false := beq_eq_false_iff_ne.2 hc
    have heq : (st.chat_history.filter
        (fun t => !(t.session_id == sid))).filter
          (fun t => t.session_id == s.id && t.role == "user")
        = st.chat_history.filter
            (fun t => t.session_id == s.id && t.role == "user") := by
      rw [List.filter_filter]
      apply List.filter_congr
      intro t _
      by_cases hts : t.session_id = s.id
      · simp [hts, hcb, fun hx => hc (hts.symm.trans hx : s.id = sid)]
      · simp [beq_eq_false_iff_ne.2 hts]
    simp only [hcb, Bool.false_eq_true, if_false, heq]
    exact hb

/-- Archiving preserves the invariant. -/
theorem mcInv_archive (now : Nat) (st : Store) (u sid : String)
    (h : mcInv st) :
    mcInv (archive_session now st u sid) := by
  unfold archive_session
  split
  · exact h
  · exact mcInv_congr st _ (archF sid now) rfl (archF_id sid now)
      (archF_count sid now) rfl h

/-- Session resolution preserves the invariant; creation needs the new
uuid to be fresh in the turn table. -/
theorem mcInv_get_or_create (now : Nat) (st : Store)
    (u e s ch en sn cn newId : String)
    (hfresh : ∀ t ∈ st.chat_history, t.session_id ≠ newId)
    (h : mcInv st) :
    mcInv (get_or_create_session now st u e s ch en sn cn newId).1 := by
  unfold get_or_create_session
  cases hl : activeChapterSessions st u ch with
  | cons s0 rest =>
      exact mcInv_congr st _ (touchF s0.id now) rfl (touchF_id s0.id now)
        (touchF_count s0.id now) rfl h
  | nil =>
      intro s' hmem
      simp only [List.mem_append, List.mem_singleton] at hmem
      cases hmem with
      | inl hin => exact h s' hin
      | inr hnew =>
          subst hnew
          unfold userTurns
          have hnil : st.chat_history.filter
              (fun t => t.session_id == newId && t.role == "user") = [] := by
            apply List.filter_eq_nil_iff.2
            intro t htm
            simp [beq_eq_false_iff_ne.2 (hfresh t htm)]
          dsimp only
          rw [hnil]
          rfl

end Backend

open Backend in
/-- C7 counterexample: the claim quantifies over every sequence of
operations including clearing history, but the user-wide clear (the
`/api/chat/clear` branch without a session id) deletes the user's turns
without resetting session counters.  Starting from a store holding one
fresh session that satisfies the invariant, saving one user turn and
then clearing the user's history leaves `message_count = 1` with zero
stored user turns. -/
theorem C7_counterexample :
    mcInv sampleStore
    ∧ ¬ mcInv (clear_chat_history 2
        (save_session_chat_turn (fun _ => none) 1 sampleStore "u1" "s1"
          "user" "hi") "u1" none) := by
  constructor
  · decide
  · decide

open Backend in
/-- C7 (amended): the invariant `message_count = number of role = "user"
turns of the session` is preserved by saving turns (either role), by the
session-scoped clear, by archiving, and by session get-or-create when
the generated uuid is fresh in the turn table; the user-wide clear
(`/api/chat/clear` without a session id) is excluded, since it deletes
turns without resetting counters. -/
theorem C7_amended (llm : String → Option String) (now : Nat) (st : Store)
    (u sid role msg cu csid au asid e s ch en sn cn newId : String)
    (hfresh : ∀ t ∈ st.chat_history, t.session_id ≠ newId)
    (hinv : mcInv st) :
    mcInv (save_session_chat_turn llm now st u sid role msg)
    ∧ mcInv (clear_chat_history now st cu (some csid))
    ∧ mcInv (archive_session now st au asid)
    ∧ mcInv (get_or_create_session now st u e s ch en sn cn newId).1 :=
  ⟨mcInv_save llm now st u sid role msg hinv,
   mcInv_clear_session now st cu csid hinv,
   mcInv_archive now st au asid hinv,
   mcInv_get_or_create now st u e s ch en sn cn newId hfresh hinv⟩

open Backend in
/-- Witness for the amended C7 at a concrete store: the invariant holds
after saving a user turn into the sample store. -/
theorem C7_amended_witness :
    mcInv (save_session_chat_turn (fun _ => none) 1 sampleStore "u1" "s1"
      "user" "hi") :=
  (C7_amended (fun _ => none) 1 sampleStore "u1" "s1" "user" "hi" "u1" "s1"
    "u1" "s1" "e" "sb" "ch" "E" "S" "C" "fresh" (by decide) (by decide)).1

/-! ## C1 — the summarization trigger -/

namespace Backend

theorem find?_map_pred {α : Type} (p : α → Bool) (f : α → α)
    (h : ∀ x, p (f x) = p x) (l : List α) :
    (l.map f).find? p = (l.find? p).map f := by
  induction l with
  | nil => rfl
  | cons x xs ih =>
      simp only [List.map_cons]
      cases hx : p x with
      | true =>
          rw [List.find?_cons_of_pos _ (by rw [h x]; exact hx),
            List.find?_cons_of_pos _ hx]
          rfl
      | false =>
          rw [List.find?_cons_of_neg _ (by rw [h x, hx]; exact Bool.false_ne_true),
            List.find?_cons_of_neg _ (by rw [hx]; exact Bool.false_ne_true)]
          exact ih

theorem findSession_touch (st : Store) (sid : String) (now : Nat) :
    findSession (touchSession st sid now) sid
      = (findSession st sid).map (touchF sid now) :=
  find?_map_pred _ _ (fun s => by rw [touchF_id]) _

theorem findSession_setSummary (st : Store) (sid summ : String)
    (now : Nat) :
    findSession (setSummary st sid summ now) sid
      = (findSession st sid).map (summF sid summ now) :=
  find?_map_pred _ _ (fun s => by rw [summF_id]) _

theorem sessionTurns_touch (st : Store) (sid : String) (now : Nat)
    (sid2 : String) :
    sessionTurns (touchSession st sid now) sid2 = sessionTurns st sid2 := rfl

theorem sessionTurns_append_self (st : Store) (u sid role msg : String) :
    sessionTurns
        { st with chat_history := st.chat_history ++ [⟨u, sid, role, msg⟩] }
        sid
      = sessionTurns st sid ++ [⟨u, sid, role, msg⟩] := by
  unfold sessionTurns
  rw [List.filter_append]
  simp

theorem save_assistant_eq (llm : String → Option String) (now : Nat)
    (st : Store) (u sid msg : String) :
    save_session_chat_turn llm now st u sid "assistant" msg
      = maybeSummarize llm now
          (touchSession
            { st with chat_history :=
                st.chat_history ++ [⟨u, sid, "assistant", msg⟩] }
            sid now) sid := rfl

theorem save_user_eq (llm : String → Option String) (now : Nat)
    (st : Store) (u sid msg : String) :
    save_session_chat_turn llm now st u sid "user" msg
      = touchSession
          (increment_session_message_count
            { st with chat_history :=
                st.chat_history ++ [⟨u, sid, "user", msg⟩] }
            sid) sid now := rfl

end Backend

open Backend in
/-- C1: after an assistant turn is saved for a session whose user-message
count `m` (already bumped by the preceding user-turn save) is a positive
multiple of 10, and the generation call succeeds, the engine summarizes
the slice `[max(0, m-16), m-6)` of the session's turns ordered oldest to
newest (here including the just-saved assistant turn) and stores the
result as the session's single standing summary, overwriting whatever
summary the session row held before.  In particular at `m = 10` the
summarized range is `[0, 4)` (see the witness), leaving the most recent
six messages outside the summary. -/
theorem C1_summarization_trigger (llm : String → Option String)
    (now m : Nat) (st : Store) (u sid msg : String) (s0 : Session)
    (summ : String)
    (hfind : findSession st sid = some s0)
    (hm : s0.message_count = m)
    (hpos : 0 < m) (hmod : m % 10 = 0)
    (hlen : m ≤ (sessionTurns st sid).length)
    (hllm : llm (summary_prompt (formatTurns (sliceRange
        (sessionTurns st sid ++ [⟨u, sid, "assistant", msg⟩])
        (m - 16) (m - 6)))) = some summ) :
    ∃ s1, findSession
        (save_session_chat_turn llm now st u sid "assistant" msg) sid
        = some s1
      ∧ s1.conversation_summary = some summ := by
  have hs0id : (s0.id == sid) = true := by
    have := List.find?_some hfind
    exact this
  have hfind1 : findSession
      { st with chat_history :=
          st.chat_history ++ [⟨u, sid, "assistant", msg⟩] } sid
      = some s0 := hfind
  have h10 : 10 ≤ m :=
    Nat.le_of_dvd hpos (Nat.dvd_of_mod_eq_zero hmod)
  rw [save_assistant_eq]
  unfold maybeSummarize
  rw [findSession_touch, hfind1, Option.map_some']
  have hcond : (decide (0 < (touchF sid now s0).message_count)
      && ((touchF sid now s0).message_count % 10 == 0)) = true := by
    rw [touchF_count, hm]
    simp [hpos, hmod]
  simp only [touchF_count, hm, gt_iff_lt]
  rw [if_pos (by rw [touchF_count, hm] at hcond; exact hcond)]
  unfold generate_conversation_summary
  rw [sessionTurns_touch, sessionTurns_append_self]
  have hne : (sliceRange (sessionTurns st sid
      ++ [(⟨u, sid, "assistant", msg⟩ : Turn)]) (m - 16) (m - 6)).isEmpty
      = false := by
    have hlength : 0 < (sliceRange (sessionTurns st sid
        ++ [(⟨u, sid, "assistant", msg⟩ : Turn)]) (m - 16) (m - 6)).length := by
      unfold sliceRange
      rw [List.length_take, List.length_drop, List.length_append]
      simp only [List.length_singleton]
      omega
    cases hi : (sliceRange (sessionTurns st sid
        ++ [(⟨u, sid, "assistant", msg⟩ : Turn)]) (m - 16) (m - 6)).isEmpty
    · rfl
    · rw [List.isEmpty_iff] at hi
      rw [hi] at hlength
      exact absurd hlength (by simp)
  rw [hne]
  simp only [Bool.false_eq_true, if_false, hllm]
  refine ⟨summF sid summ now (touchF sid now s0), ?_, ?_⟩
  · rw [findSession_setSummary, findSession_touch, hfind1]
    rfl
  · simp [summF, touchF_id, hs0id]

open Backend in
/-- Witness for C1 at `m = 10`: the store holds ten user turns (counter
already at 10) and nine assistant replies; saving the tenth assistant
reply with an always-succeeding generation service stores the new
standing summary, and the summarized slice `[0, 4)` is exactly the first
four turns of the conversation. -/
theorem C1_summarization_trigger_witness :
    (∃ s1, findSession
        (save_session_chat_turn (fun _ => some "SUMMARY") 20 c1Store "u1"
          "s1" "assistant" "a10") "s1"
        = some s1
      ∧ s1.conversation_summary = some "SUMMARY")
    ∧ sliceRange (sessionTurns c1Store "s1"
        ++ [⟨"u1", "s1", "assistant", "a10"⟩]) (10 - 16) (10 - 6)
      = [⟨"u1", "s1", "user", "q1"⟩, ⟨"u1", "s1", "assistant", "a1"⟩,
         ⟨"u1", "s1", "user", "q2"⟩, ⟨"u1", "s1", "assistant", "a2"⟩] :=
  ⟨C1_summarization_trigger (fun _ => some "SUMMARY") 20 10 c1Store "u1"
      "s1" "a10" { sampleSession with message_count := 10 } "SUMMARY"
      (by decide) rfl (by decide) (by decide) (by decide) rfl,
    by decide⟩

/-! ## C2 — turn-pair atomicity, and C4 — retrieval failure handling -/

namespace Backend

theorem gcs_fst_history (llm : String → Option String) (now : Nat)
    (st : Store) (sid : String) (a b : Nat) :
    (generate_conversation_summary llm now st sid a b).1.chat_history
      = st.chat_history := by
  unfold generate_conversation_summary
  split
  · rfl
  · split
    · rfl
    · rfl

theorem maybeSummarize_history (llm : String → Option String) (now : Nat)
    (st : Store) (sid : String) :
    (maybeSummarize llm now st sid).chat_history = st.chat_history := by
  unfold maybeSummarize
  split
  · rfl
  · split
    · exact gcs_fst_history llm now _ _ _ _
    · rfl

/-- Whatever the role, saving a turn appends exactly that turn to the
turn table. -/
theorem save_history (llm : String → Option String) (now : Nat)
    (st : Store) (u sid role msg : String) :
    (save_session_chat_turn llm now st u sid role msg).chat_history
      = st.chat_history ++ [⟨u, sid, role, msg⟩] := by
  by_cases ha : role = "assistant"
  · subst ha
    rw [save_assistant_eq, maybeSummarize_history, touchSession_history]
  · by_cases hu : role = "user"
    · subst hu
      rw [save_user_eq]
      rfl
    · unfold save_session_chat_turn
      have h1 : (role == "user") = false := beq_eq_false_iff_ne.2 hu
      have h2 : (role == "assistant") = false := beq_eq_false_iff_ne.2 ha
      simp only [h1, h2, Bool.false_eq_true, if_false]
      rfl

theorem getOrCreate_history (now : Nat) (st : Store)
    (u e s ch en sn cn newId : String) :
    (get_or_create_session now st u e s ch en sn cn newId).1.chat_history
      = st.chat_history := by
  unfold get_or_create_session
  split
  · rfl
  · rfl

end Backend

open Backend in
/-- C2: on an orchestrated answer request that reaches the generation
stage (valid scope fields, embedding and store query succeeded), a
failed generation call persists nothing — the turn table is exactly what
it was before the request, and the caller gets the fixed failure
message — while a successful generation persists the user turn and then
the assistant turn, in that order, at the end of the turn table. -/
theorem C2_turn_pair_atomicity (llm gen : String → Option String)
    (now : Nat) (st : Store) (user_id : String) (req : ChatRequest)
    (nid : String) (emb : List Int) (chunks : List ChunkRow)
    (st1 : Store) (sid : String)
    (hv : validReq req = true)
    (hsess : get_or_create_session now st user_id (req.exam_id.getD "")
      (req.subject_id.getD "") (req.chapter_id.getD "")
      (req.exam_name.getD "") (req.subject_name.getD "")
      (req.chapter_name.getD "") nid = (st1, sid)) :
    (gen (chatPrompt st1 req sid chunks) = none →
      (chat llm gen now st user_id req nid (some emb)
          (Except.ok chunks)).1.chat_history = st.chat_history
      ∧ (chat llm gen now st user_id req nid (some emb)
          (Except.ok chunks)).2 = .error llmFailureMessage)
    ∧ (∀ a, gen (chatPrompt st1 req sid chunks) = some a →
        (chat llm gen now st user_id req nid (some emb)
            (Except.ok chunks)).1.chat_history
          = st.chat_history
            ++ [⟨user_id, sid, "user", req.question⟩,
                ⟨user_id, sid, "assistant", a⟩]
        ∧ (chat llm gen now st user_id req nid (some emb)
            (Except.ok chunks)).2 = .answer a) := by
  have hist1 : st1.chat_history = st.chat_history := by
    have := getOrCreate_history now st user_id (req.exam_id.getD "")
      (req.subject_id.getD "") (req.chapter_id.getD "")
      (req.exam_name.getD "") (req.subject_name.getD "")
      (req.chapter_name.getD "") nid
    rw [hsess] at this
    exact this
  unfold chat
  rw [hv]
  simp only [Bool.not_true, Bool.false_eq_true, if_false, hsess]
  constructor
  · intro hg
    rw [hg]
    exact ⟨hist1, rfl⟩
  · intro a hg
    rw [hg]
    refine ⟨?_, rfl⟩
    rw [save_history, save_history, hist1, List.append_assoc]
    rfl

open Backend in
/-- Witness for C2 at a concrete request against the empty store with an
always-succeeding generation service: exactly the user turn followed by
the assistant turn are persisted. -/
theorem C2_turn_pair_atomicity_witness :
    (chat (fun _ => none) (fun _ => some "guidance") 0 ⟨[], []⟩ "u1"
        sampleReq "sid1" (some [1]) (Except.ok [])).1.chat_history
      = [⟨"u1", "sid1", "user", "what is a matrix"⟩,
         ⟨"u1", "sid1", "assistant", "guidance"⟩] := by
  have h := ((C2_turn_pair_atomicity (fun _ => none)
      (fun _ => some "guidance") 0 ⟨[], []⟩ "u1" sampleReq "sid1" [1] []
      sampleSess.1 sampleSess.2 (by decide) rfl).2 "guidance" rfl).1
  simpa using h

open Backend in
/-- C4 counterexample: when the `match_chunks` store query raises, the
orchestrator does not degrade to an empty context — it aborts the
request with a "Chunk search failed" error and never reaches generation,
even with a generation service that would succeed; no turn is
persisted. -/
theorem C4_retrieval_failure_counterexample :
    (chat (fun _ => none) (fun _ => some "guidance") 0 ⟨[], []⟩ "u1"
        sampleReq "sid1" (some [1]) (Except.error "boom")).2
      = ChatResult.error "Chunk search failed: boom"
    ∧ (chat (fun _ => none) (fun _ => some "guidance") 0 ⟨[], []⟩ "u1"
        sampleReq "sid1" (some [1]) (Except.error "boom")).1.chat_history
      = [] := by
  constructor
  · rfl
  · rfl

open Backend in
/-- C4 (amended): a *failure* of the store query aborts the request with
the "Chunk search failed" error (no generation, no persisted turns, the
turn table unchanged); only a *successful* query with an empty result
degrades to the empty context string, in which case the request still
proceeds to generation and returns its answer. -/
theorem C4_retrieval_failure_amended (llm gen : String → Option String)
    (now : Nat) (st : Store) (user_id : String) (req : ChatRequest)
    (nid e : String) (emb : List Int) (st1 : Store) (sid : String)
    (hv : validReq req = true)
    (hsess : get_or_create_session now st user_id (req.exam_id.getD "")
      (req.subject_id.getD "") (req.chapter_id.getD "")
      (req.exam_name.getD "") (req.subject_name.getD "")
      (req.chapter_name.getD "") nid = (st1, sid)) :
    ((chat llm gen now st user_id req nid (some emb) (Except.error e)).2
        = .error ("Chunk search failed: " ++ e)
      ∧ (chat llm gen now st user_id req nid (some emb)
          (Except.error e)).1.chat_history = st.chat_history)
    ∧ (∀ a, gen (chatPrompt st1 req sid []) = some a →
        (chat llm gen now st user_id req nid (some emb)
            (Except.ok [])).2 = .answer a) := by
  have hist1 : st1.chat_history = st.chat_history := by
    have := getOrCreate_history now st user_id (req.exam_id.getD "")
      (req.subject_id.getD "") (req.chapter_id.getD "")
      (req.exam_name.getD "") (req.subject_name.getD "")
      (req.chapter_name.getD "") nid
    rw [hsess] at this
    exact this
  constructor
  · unfold chat
    rw [hv]
    simp only [Bool.not_true, Bool.false_eq_true, if_false, hsess]
    exact ⟨trivial, hist1⟩
  · intro a hg
    unfold chat
    rw [hv]
    simp only [Bool.not_true, Bool.false_eq_true, if_false, hsess, hg]

open Backend in
/-- Witness for the amended C4: against the empty store, a store-query
failure yields the chunk-search error, and an empty (successful) result
still produces the generated answer. -/
theorem C4_retrieval_failure_amended_witness :
    (chat (fun _ => none) (fun _ => some "guidance") 0 ⟨[], []⟩ "u1"
        sampleReq "sid1" (some [1]) (Except.error "down")).2
      = ChatResult.error "Chunk search failed: down"
    ∧ (chat (fun _ => none) (fun _ => some "guidance") 0 ⟨[], []⟩ "u1"
        sampleReq "sid1" (some [1]) (Except.ok [])).2
      = ChatResult.answer "guidance" :=
  ⟨((C4_retrieval_failure_amended (fun _ => none) (fun _ => some "guidance")
      0 ⟨[], []⟩ "u1" sampleReq "sid1" "down" [1] sampleSess.1 sampleSess.2
      (by decide) rfl).1).1,
   (C4_retrieval_failure_amended (fun _ => none) (fun _ => some "guidance")
      0 ⟨[], []⟩ "u1" sampleReq "sid1" "down" [1] sampleSess.1 sampleSess.2
      (by decide) rfl).2 "guidance" rfl⟩

/-! ## C5 — authentication -/

open Auth in
/-- C5 counterexample: the claim demands that every inbound operation
reject requests without a valid bearer credential before any downstream
work.  The `get_current_user` dependency of `src/main.py` instead
proceeds: with no Authorization header at all, and likewise with a
bearer token that fails to decode, the request runs under the hardcoded
development user id rather than being rejected. -/
theorem C5_auth_counterexample :
    mainGetCurrentUser noDecode none = AuthOutcome.user fallbackUserId
    ∧ mainGetCurrentUser noDecode (some "Bearer garbage")
      = AuthOutcome.user fallbackUserId := by
  constructor
  · rfl
  · decide

open Auth in
/-- C5 (amended): the backend app's `get_current_user`
(`src/backend/auth.py`), with the JWT secret configured, rejects a
request with a missing Authorization header before any downstream work,
and every request it lets through runs under an identifier resolved from
the verified decode of the presented bearer token; the legacy app
(`src/main.py`) instead falls back to a hardcoded development user id,
and with the secret unset the backend decodes without verifying the
signature. -/
theorem C5_auth_amended (secret : String)
    (dV : String → String → Option JwtClaims)
    (dU : String → Option JwtClaims) (auth : Option String) :
    (backendGetCurrentUser (some secret) dV dU none
      = .rejected 401 "Authorization header missing")
    ∧ (∀ uid, backendGetCurrentUser (some secret) dV dU auth
          = .user uid →
        ∃ a p0 tok claims, auth = some a ∧ pySplitWs a = [p0, tok]
          ∧ pyLower p0 = "bearer"
          ∧ dV tok secret = some claims
          ∧ pyOr claims.sub claims.user_id = some uid ∧ uid ≠ "") := by
  constructor
  · rfl
  · intro uid h
    unfold backendGetCurrentUser at h
    cases auth with
    | none => exact absurd h (by simp)
    | some a =>
        dsimp only at h
        cases hsp : pySplitWs a with
        | nil => rw [hsp] at h; exact absurd h (by simp)
        | cons p0 rest =>
            rw [hsp] at h
            dsimp only at h
            cases hbool : (!(pyLower p0 == "bearer")
                || !((p0 :: rest).length == 2)) with
            | true =>
                rw [hbool] at h
                simp at h
            | false =>
                rw [hbool] at h
                simp only [Bool.false_eq_true, if_false] at h
                rw [Bool.or_eq_false_iff] at hbool
                obtain ⟨hb1, hb2⟩ := hbool
                have hlow : pyLower p0 = "bearer" := by
                  have hb1t : (pyLower p0 == "bearer") = true := by
                    simpa using hb1
                  exact beq_iff_eq.1 hb1t
                have hlen : rest.length = 1 := by
                  have hb2t : ((p0 :: rest).length == 2) = true := by
                    simpa using hb2
                  have := beq_iff_eq.1 hb2t
                  simpa using this
                obtain ⟨tok, rfl⟩ := List.length_eq_one.1 hlen
                simp only [List.getElem?_cons_succ, List.getElem?_cons_zero,
                  Option.getD_some] at h
                cases hdv : dV tok secret with
                | none => rw [hdv] at h; simp at h
                | some claims =>
                    rw [hdv] at h
                    dsimp only at h
                    cases hpo : pyOr claims.sub claims.user_id with
                    | none => rw [hpo] at h; simp at h
                    | some u =>
                        rw [hpo] at h
                        dsimp only at h
                        by_cases hu : u = ""
                        · rw [if_pos (by simp [hu])] at h
                          simp at h
                        · rw [if_neg (by simp [hu])] at h
                          have huid : u = uid := by
                            cases h
                            rfl
                          subst huid
                          exact ⟨a, p0, tok, claims, rfl, hsp, hlow, hdv,
                            hpo, hu⟩

open Auth in
/-- Witness for the amended C5: the secret "k1", a decoder accepting
only "tok123" with subject "u42", and the header "Bearer tok123" — the
accepted identifier "u42" is the one the decoder resolved. -/
theorem C5_auth_amended_witness :
    ∃ a p0 tok claims,
      (some "Bearer tok123" : Option String) = some a
      ∧ pySplitWs a = [p0, tok] ∧ pyLower p0 = "bearer"
      ∧ sampleDecode tok "k1" = some claims
      ∧ pyOr claims.sub claims.user_id = some "u42" ∧ "u42" ≠ "" :=
  (C5_auth_amended "k1" sampleDecode noDecode
    (some "Bearer tok123")).2 "u42" (by decide)

/-! ## C3 — retrieval ordering and the missing threshold -/

namespace Rag

theorem mem_insertByKey {α : Type} (key : α → ℚ) (x y : α) (l : List α) :
    y ∈ insertByKey key x l ↔ y = x ∨ y ∈ l := by
  induction l with
  | nil => simp [insertByKey]
  | cons z zs ih =>
      unfold insertByKey
      split
      · simp [or_comm, or_assoc, or_left_comm]
      · simp only [List.mem_cons, ih]
        tauto

theorem mem_sortByKey {α : Type} (key : α → ℚ) (y : α) (l : List α) :
    y ∈ sortByKey key l ↔ y ∈ l := by
  induction l with
  | nil => simp [sortByKey]
  | cons z zs ih =>
      unfold sortByKey
      rw [mem_insertByKey]
      simp [ih]

theorem sorted_insertByKey {α : Type} (key : α → ℚ) (x : α) (l : List α)
    (h : l.Pairwise (fun a b => key a ≤ key b)) :
    (insertByKey key x l).Pairwise (fun a b => key a ≤ key b) := by
  induction l with
  | nil => simp [insertByKey]
  | cons z zs ih =>
      rw [List.pairwise_cons] at h
      obtain ⟨hz, hzs⟩ := h
      unfold insertByKey
      split
      · rename_i hle
        rw [List.pairwise_cons]
        refine ⟨?_, List.Pairwise.cons hz hzs⟩
        intro y hy
        rcases List.mem_cons.1 hy with rfl | hy2
        · exact hle
        · exact le_trans hle (hz y hy2)
      · rename_i hgt
        rw [List.pairwise_cons]
        refine ⟨?_, ih hzs⟩
        intro y hy
        rcases (mem_insertByKey key x y zs).1 hy with rfl | hy2
        · exact le_of_not_le hgt
        · exact hz y hy2

theorem sorted_sortByKey {α : Type} (key : α → ℚ) (l : List α) :
    (sortByKey key l).Pairwise (fun a b => key a ≤ key b) := by
  induction l with
  | nil => simp [sortByKey]
  | cons z zs ih => exact sorted_insertByKey key z _ ih

end Rag

open Rag in
/-- C3 counterexample: `retrieve_chunks` has no similarity-threshold
parameter and applies no similarity filter — it returns the `top_k`
nearest rows unconditionally.  A corpus whose single chunk lies at
cosine distance 9/10 from the query is returned with similarity 1/10,
strictly below the 3/10 threshold the backend chat caller operates
with (and below any positive threshold), so the claim "no returned
result has similarity strictly below the similarity_threshold
parameter" fails. -/
theorem C3_retrieval_counterexample :
    retrieve_chunks [⟨1, "far away chunk", "meta"⟩]
        (fun _ => (9 : ℚ)/10) 5
      = [⟨1, "far away chunk", "meta", 1 - (9 : ℚ)/10⟩]
    ∧ (1 - (9 : ℚ)/10) < 3/10 := by
  constructor
  · rfl
  · norm_num

open Rag in
/-- C3 (amended): retrieval returns results ordered by non-increasing
similarity, where similarity is `1 - cosine distance`; `top_k = 0` and
an empty corpus both yield the empty sequence rather than an error; and
every returned row comes from the corpus with its similarity computed
from its distance.  No similarity threshold is applied by
`retrieve_chunks` itself — thresholding exists only in the store-side
`match_chunks` RPC used by the backend chat path. -/
theorem C3_retrieval_amended (corpus : List DbChunk)
    (dist : DbChunk → ℚ) (top_k : Nat) :
    (retrieve_chunks corpus dist top_k).Pairwise
        (fun a b => b.similarity_score ≤ a.similarity_score)
    ∧ retrieve_chunks corpus dist 0 = []
    ∧ retrieve_chunks [] dist top_k = []
    ∧ (∀ r ∈ retrieve_chunks corpus dist top_k,
        ∃ c ∈ corpus, r.content = c.content
          ∧ r.similarity_score = 1 - dist c) := by
  refine ⟨?_, rfl, by simp [retrieve_chunks, sortByKey], ?_⟩
  · unfold retrieve_chunks
    apply List.Pairwise.map
    · intro a b hab
      exact sub_le_sub_left hab 1
    · exact ((sorted_sortByKey dist corpus).sublist
        (List.take_sublist top_k _))
  · intro r hr
    unfold retrieve_chunks at hr
    rw [List.mem_map] at hr
    obtain ⟨c, hc, rfl⟩ := hr
    have hcc : c ∈ corpus :=
      (mem_sortByKey dist c corpus).1
        ((List.take_sublist top_k _).mem hc)
    exact ⟨c, hcc, rfl, rfl⟩

open Rag in
/-- Witness for the amended C3 at concrete corpora: `top_k = 0` and the
empty corpus both return the empty sequence, and the single returned
result of a one-chunk corpus carries `similarity = 1 - distance` of a
corpus row. -/
theorem C3_retrieval_amended_witness :
    retrieve_chunks ([] : List DbChunk) (fun _ => 0) 5 = []
    ∧ retrieve_chunks [⟨1, "c", "m"⟩] (fun _ => 0) 0 = []
    ∧ ∃ c ∈ [(⟨1, "c", "m"⟩ : DbChunk)],
        (⟨1, "c", "m", 1 - (0 : ℚ)⟩ : RetrievedChunk).content = c.content
        ∧ (⟨1, "c", "m", 1 - (0 : ℚ)⟩ : RetrievedChunk).similarity_score
          = 1 - (fun _ => (0 : ℚ)) c :=
  ⟨(C3_retrieval_amended [] (fun _ => 0) 5).2.2.1,
   (C3_retrieval_amended [⟨1, "c", "m"⟩] (fun _ => 0) 0).2.1,
   (C3_retrieval_amended [⟨1, "c", "m"⟩] (fun _ => 0) 5).2.2.2
     ⟨1, "c", "m", 1 - (0 : ℚ)⟩
     (by simp [retrieve_chunks, sortByKey, insertByKey])⟩

/-! ## C8 and C9 — chunker lemmas -/

namespace Rag

theorem lstrip_eq_self_of (s : PyStr) (h : headWs s = false) :
    lstrip s = s := by
  cases s with
  | nil => rfl
  | cons c r =>
      unfold lstrip
      exact List.dropWhile_cons_of_neg (by simpa [headWs] using h)

theorem rstrip_reverse (s : PyStr) :
    (rstrip s).reverse = s.reverse.dropWhile pyWs := by
  unfold rstrip
  rw [List.reverse_reverse]

theorem rstrip_eq_self_of (s : PyStr) (h : headWs s.reverse = false) :
    rstrip s = s := by
  unfold rstrip
  show (lstrip s.reverse).reverse = s
  rw [lstrip_eq_self_of s.reverse h, List.reverse_reverse]

theorem pstrip_eq_self (s : PyStr) (h1 : headWs s = false)
    (h2 : headWs s.reverse = false) : pstrip s = s := by
  unfold pstrip
  rw [lstrip_eq_self_of s h1, rstrip_eq_self_of s h2]

theorem rstrip_prefix_self (s : PyStr) : rstrip s <+: s := by
  have h := List.dropWhile_suffix (l := s.reverse) pyWs
  have h2 : (rstrip s).reverse <:+ s.reverse := by
    rw [rstrip_reverse]
    exact h
  exact List.reverse_suffix.1 h2

theorem pstrip_length_le (s : PyStr) : (pstrip s).length ≤ s.length := by
  unfold pstrip
  calc (rstrip (lstrip s)).length
      ≤ (lstrip s).length := by
        have := (rstrip_prefix_self (lstrip s)).sublist
        exact this.length_le
    _ ≤ s.length := (List.dropWhile_sublist pyWs).length_le

theorem headWs_lstrip (s : PyStr) :
    lstrip s = [] ∨ headWs (lstrip s) = false := by
  induction s with
  | nil => exact Or.inl rfl
  | cons c r ih =>
      unfold lstrip
      cases hc : pyWs c with
      | true =>
          rw [List.dropWhile_cons_of_pos hc]
          exact ih
      | false =>
          rw [List.dropWhile_cons_of_neg (by simp [hc])]
          exact Or.inr (by simpa [headWs] using hc)

theorem headWs_of_prefix (s t : PyStr) (h : t <+: s)
    (hs : headWs s = false) : t = [] ∨ headWs t = false := by
  cases t with
  | nil => exact Or.inl rfl
  | cons c r =>
      obtain ⟨u, hu⟩ := h
      right
      rw [← hu] at hs
      simpa [headWs] using hs

/-- A non-empty stripped string has a non-whitespace first and last
character. -/
theorem pstrip_good (q : PyStr) (h : pstrip q ≠ []) : goodPara (pstrip q) := by
  refine ⟨h, ?_, ?_⟩
  · have hl : lstrip q ≠ [] := by
      intro hc
      apply h
      unfold pstrip
      rw [hc]
      rfl
    have hlw : headWs (lstrip q) = false :=
      (headWs_lstrip q).resolve_left hl
    rcases headWs_of_prefix (lstrip q) (pstrip q) (rstrip_prefix_self (lstrip q))
        hlw with hnil | hok
    · exact absurd hnil h
    · exact hok
  · have hrep : (pstrip q).reverse = lstrip ((lstrip q).reverse) := by
      unfold pstrip
      rw [rstrip_reverse]
      rfl
    rw [hrep]
    rcases headWs_lstrip ((lstrip q).reverse) with hnil | hok
    · exfalso
      apply h
      have hrev : (pstrip q).reverse = [] := by rw [hrep]; exact hnil
      have := congrArg List.reverse hrev
      simpa using this
    · exact hok

theorem paragraphs_good (text : PyStr) :
    ∀ p ∈ paragraphs text, goodPara p := by
  intro p hp
  unfold paragraphs at hp
  obtain ⟨hmem, hne⟩ := List.mem_filter.1 hp
  obtain ⟨q, _, rfl⟩ := List.mem_map.1 hmem
  apply pstrip_good
  intro hc
  rw [hc] at hne
  simp at hne

theorem noBoundary_nil : noBoundary [] = true := rfl

theorem noBoundary_single (c : Char) : noBoundary [c] = true := rfl

theorem noBoundary_cons_cons (c d : Char) (r : List Char) :
    noBoundary (c :: d :: r)
      = (!(isPunct c && pyWs d) && noBoundary (d :: r)) := rfl

theorem noBoundary_tail (c : Char) (s : List Char)
    (h : noBoundary (c :: s) = true) : noBoundary s = true := by
  cases s with
  | nil => rfl
  | cons d r =>
      rw [noBoundary_cons_cons, Bool.and_eq_true] at h
      exact h.2

theorem noBoundary_take (s : List Char) :
    ∀ n : Nat, noBoundary s = true → noBoundary (s.take n) = true := by
  induction s with
  | nil =>
      intro n h
      simpa using h
  | cons c s' ih =>
      intro n h
      cases n with
      | zero => rfl
      | succ m =>
          rw [List.take_succ_cons]
          cases s' with
          | nil => simp [List.take_nil, noBoundary_single]
          | cons d r =>
              rw [noBoundary_cons_cons, Bool.and_eq_true] at h
              cases m with
              | zero => rfl
              | succ k =>
                  rw [List.take_succ_cons, noBoundary_cons_cons,
                    Bool.and_eq_true]
                  refine ⟨h.1, ?_⟩
                  have := ih (k + 1) h.2
                  rwa [List.take_succ_cons] at this

theorem noBoundary_drop (s : List Char) :
    ∀ n : Nat, noBoundary s = true → noBoundary (s.drop n) = true := by
  induction s with
  | nil =>
      intro n h
      simpa using h
  | cons c s' ih =>
      intro n h
      cases n with
      | zero => exact h
      | succ m =>
          rw [List.drop_succ_cons]
          exact ih m (noBoundary_tail c s' h)

theorem noBoundary_prefix (s t : PyStr) (h : t <+: s)
    (hs : noBoundary s = true) : noBoundary t = true := by
  rw [List.prefix_iff_eq_take.1 h]
  exact noBoundary_take s t.length hs

theorem noBoundary_dropWhile (p : Char → Bool) (s : List Char)
    (h : noBoundary s = true) : noBoundary (s.dropWhile p) = true := by
  induction s with
  | nil => exact h
  | cons c s' ih =>
      cases hc : p c with
      | true =>
          rw [List.dropWhile_cons_of_pos hc]
          exact ih (noBoundary_tail c s' h)
      | false =>
          rw [List.dropWhile_cons_of_neg (by simp [hc])]
          exact h

theorem noBoundary_pstrip (s : PyStr) (h : noBoundary s = true) :
    noBoundary (pstrip s) = true := by
  have h1 : noBoundary (lstrip s) = true := noBoundary_dropWhile pyWs s h
  exact noBoundary_prefix (lstrip s) (pstrip s) (rstrip_prefix_self (lstrip s)) h1

theorem consHead_ne_nil (c : Char) (l : List PyStr) : consHead c l ≠ [] := by
  cases l <;> simp [consHead]

theorem ssGo_ne_nil (s : List Char) : ∀ skip : Bool, ssGo skip s ≠ [] := by
  induction s with
  | nil => intro skip; simp [ssGo]
  | cons c rest ih =>
      intro skip
      unfold ssGo
      split
      · exact ih true
      · split
        · simp
        · exact consHead_ne_nil c _

theorem ssGo_false_head (d : Char) (r : List Char) :
    ∃ t ts, ssGo false (d :: r) = (d :: t) :: ts := by
  unfold ssGo
  rw [if_neg (by simp)]
  split
  · exact ⟨[], ssGo true r, rfl⟩
  · obtain ⟨s, ss, hss⟩ := List.exists_cons_of_ne_nil (ssGo_ne_nil r false)
    rw [hss]
    exact ⟨s, ss, rfl⟩

theorem ssGo_noBoundary (s : List Char) :
    ∀ (skip : Bool), ∀ e ∈ ssGo skip s, noBoundary e = true := by
  induction s with
  | nil =>
      intro skip e he
      simp only [ssGo, List.mem_singleton] at he
      subst he
      rfl
  | cons c rest ih =>
      intro skip e he
      unfold ssGo at he
      split at he
      · exact ih true e he
      · split at he
        · rcases List.mem_cons.1 he with rfl | he2
          · rfl
          · exact ih true e he2
        · rename_i hskip hbnd
          obtain ⟨e0, es, hsplit⟩ :=
            List.exists_cons_of_ne_nil (ssGo_ne_nil rest false)
          rw [hsplit] at he
          simp only [consHead, List.mem_cons] at he
          have hbf : (isPunct c && headWs rest) = false := by
            cases hx : (isPunct c && headWs rest)
            · rfl
            · exact absurd hx hbnd
          rcases he with rfl | he2
          · cases rest with
            | nil =>
                have he0 : e0 = [] := by
                  have h0 : ssGo false ([] : List Char) = [[]] := rfl
                  rw [h0] at hsplit
                  cases hsplit
                  rfl
                subst he0
                rfl
            | cons d r =>
                obtain ⟨t, ts, hdt⟩ := ssGo_false_head d r
                rw [hdt] at hsplit
                have he0 : e0 = d :: t := by
                  cases hsplit
                  rfl
                subst he0
                rw [noBoundary_cons_cons, Bool.and_eq_true]
                constructor
                · have hbf2 : (isPunct c && pyWs d) = false := hbf
                  rw [hbf2]
                  rfl
                · have hm : (d :: t) ∈ ssGo false (d :: r) := by
                    rw [hdt]
                    exact List.mem_cons_self _ _
                  exact ih false (d :: t) hm
          · have hm : e ∈ ssGo false rest := by
              rw [hsplit]
              exact List.mem_cons_of_mem _ he2
            exact ih false e hm

theorem ssGo_of_noBoundary (s : PyStr) (h : noBoundary s = true) :
    ssGo false s = [s] := by
  induction s with
  | nil => rfl
  | cons c rest ih =>
      unfold ssGo
      rw [if_neg (by simp)]
      have hbnd : (isPunct c && headWs rest) = false := by
        cases rest with
        | nil => simp [headWs]
        | cons d r =>
            rw [noBoundary_cons_cons, Bool.and_eq_true] at h
            have h1 := h.1
            have hdf : (isPunct c && pyWs d) = false := by
              cases hx : (isPunct c && pyWs d)
              · rfl
              · rw [hx] at h1
                exact absurd h1 (by simp)
            exact hdf
      rw [if_neg (by simp [hbnd])]
      rw [ih (noBoundary_tail c rest h)]
      rfl

theorem sentSplit_of_noBoundary (s : PyStr) (h : noBoundary s = true) :
    sentSplit s = [s] := ssGo_of_noBoundary s h

/-- Invariant of the sentence loop: every emitted chunk either fits in
`maxSize` or its content is (the strip of) a single boundary-free
sentence. -/
theorem sentLoop_boundary (maxSize : Nat) :
    ∀ (ss : List PyStr) (sub : PyStr) (start idx : Nat),
    (∀ s ∈ ss, noBoundary s = true) →
    (sub.length ≤ maxSize ∨ noBoundary sub = true) →
    ∀ c ∈ sentLoop maxSize ss sub start idx,
      c.content.length ≤ maxSize ∨ noBoundary c.content = true := by
  intro ss
  induction ss with
  | nil =>
      intro sub start idx hss hsub c hc
      unfold sentLoop at hc
      split at hc
      · simp at hc
      · rw [List.mem_singleton] at hc
        subst hc
        rcases hsub with hl | hr
        · exact Or.inl (le_trans (pstrip_length_le sub) hl)
        · exact Or.inr (noBoundary_pstrip sub hr)
  | cons s rest ih =>
      intro sub start idx hss hsub c hc
      unfold sentLoop at hc
      split at hc
      · rcases List.mem_cons.1 hc with rfl | hc2
        · rcases hsub with hl | hr
          · exact Or.inl (le_trans (pstrip_length_le sub) hl)
          · exact Or.inr (noBoundary_pstrip sub hr)
        · exact ih s _ _ (fun x hx => hss x (List.mem_cons_of_mem _ hx))
            (Or.inr (hss s (List.mem_cons_self _ _))) c hc2
      · rename_i hcond
        apply ih _ _ _ (fun x hx => hss x (List.mem_cons_of_mem _ hx))
          _ c hc
        by_cases he : sub.isEmpty = true
        · rw [if_pos he]
          exact Or.inr (hss s (List.mem_cons_self _ _))
        · rw [if_neg he]
          left
          have hlen : ¬(sub.length + 1 + s.length > maxSize) := by
            intro hgt
            apply hcond
            simp [he, hgt]
          simp only [List.length_append, List.length_cons,
            List.length_nil]
          omega

theorem flatten_map_id {α : Type} (f : α → List α) (l : List α)
    (h : ∀ x ∈ l, f x = [x]) : (l.map f).flatten = l := by
  induction l with
  | nil => rfl
  | cons x xs ih =>
      simp only [List.map_cons, List.flatten_cons,
        h x (List.mem_cons_self _ _)]
      rw [ih (fun y hy => h y (List.mem_cons_of_mem _ hy))]
      rfl

/-- The paragraph loop numbers its chunks consecutively starting at the
incoming index. -/
theorem paraLoop_indices (maxSize overlap : Nat) :
    ∀ (ps : List PyStr) (cur : PyStr) (start idx : Nat),
    (paraLoop maxSize overlap ps cur start idx).map TextChunk.chunk_index
      = List.range' idx
          (paraLoop maxSize overlap ps cur start idx).length := by
  intro ps
  induction ps with
  | nil =>
      intro cur start idx
      unfold paraLoop
      split
      · rfl
      · rfl
  | cons p ps' ih =>
      intro cur start idx
      unfold paraLoop
      split
      · split
        · simp only [List.map_cons, List.length_cons, ih,
            List.range'_succ]
        · simp only [List.map_cons, List.length_cons, ih,
            List.range'_succ]
      · exact ih _ _ _

end Rag

open Rag in
/-- C9 counterexample: chunk indices are not strictly increasing.  For
the text "AAAA. BBBB.\n\nCC" with `max_chunk_size = 10` the first
paragraph is oversized and is re-split into two sentence chunks that use
indices 0 and 1 — but the second paragraph chunk already carries index
1, so the returned indices are [0, 1, 1]. -/
theorem C9_chunk_indices_counterexample :
    (chunk_text (ofStr "AAAA. BBBB.\n\nCC") 10 0).map TextChunk.chunk_index
      = [0, 1, 1]
    ∧ ¬ ((chunk_text (ofStr "AAAA. BBBB.\n\nCC") 10 0).map
          TextChunk.chunk_index).Chain' (fun a b => a < b) := by
  constructor
  · decide
  · intro h
    have hmap : (chunk_text (ofStr "AAAA. BBBB.\n\nCC") 10 0).map
        TextChunk.chunk_index = [0, 1, 1] := by decide
    rw [hmap] at h
    simp [List.chain'_cons] at h

open Rag in
/-- C9 (amended): every chunk's content length is at most
`max_chunk_size` except when the chunk is a single indivisible sentence
(re-splitting it by the sentence regex returns it unchanged); and the
chunk indices start at 0 and increase strictly by 1 provided no
paragraph-phase chunk needs sentence re-splitting — when a chunk is
re-split, the sub-chunks reuse indices starting at the parent chunk's
index, so indices of later chunks can repeat. -/
theorem C9_chunk_indices_amended (text : PyStr) (maxSize overlap : Nat) :
    (∀ c ∈ chunk_text text maxSize overlap,
        c.content.length ≤ maxSize ∨ sentSplit c.content = [c.content])
    ∧ ((∀ c ∈ paraChunks text maxSize overlap,
          c.content.length ≤ maxSize) →
        (chunk_text text maxSize overlap).map TextChunk.chunk_index
          = List.range (chunk_text text maxSize overlap).length) := by
  constructor
  · intro c hc
    unfold chunk_text at hc
    split at hc
    · simp at hc
    · rw [List.mem_flatten] at hc
      obtain ⟨l, hl, hcl⟩ := hc
      rw [List.mem_map] at hl
      obtain ⟨c0, hc0, rfl⟩ := hl
      unfold splitOversized at hcl
      split at hcl
      · rw [List.mem_singleton] at hcl
        subst hcl
        rename_i hsmall
        exact Or.inl hsmall
      · have := sentLoop_boundary maxSize (sentSplit c0.content) []
          c0.start_char c0.chunk_index
          (fun s hs => ssGo_noBoundary c0.content false s hs)
          (Or.inl (Nat.zero_le _)) c hcl
        rcases this with hl2 | hr2
        · exact Or.inl hl2
        · exact Or.inr (sentSplit_of_noBoundary c.content hr2)
  · intro hsmall
    unfold chunk_text
    split
    · rfl
    · have hid : ((paraChunks text maxSize overlap).map
          (splitOversized maxSize)).flatten
          = paraChunks text maxSize overlap := by
        apply flatten_map_id
        intro c hc
        unfold splitOversized
        rw [if_pos (hsmall c hc)]
      rw [hid]
      unfold paraChunks
      rw [paraLoop_indices, List.range_eq_range']

open Rag in
/-- Witness for the amended C9: a two-paragraph text whose paragraphs
fit in the size limit yields chunks indexed consecutively from 0. -/
theorem C9_chunk_indices_amended_witness :
    (chunk_text (ofStr "Hello there.\n\nBye now.") 100 0).map
        TextChunk.chunk_index
      = List.range
          (chunk_text (ofStr "Hello there.\n\nBye now.") 100 0).length :=
  (C9_chunk_indices_amended (ofStr "Hello there.\n\nBye now.") 100 0).2
    (by decide)

/-! ## C8 — reconstruction of the normalized text -/

namespace Rag

theorem joinSep_cons (sep p : PyStr) (l : List PyStr) (h : l ≠ []) :
    joinSep sep (p :: l) = p ++ sep ++ joinSep sep l := by
  cases l with
  | nil => exact absurd rfl h
  | cons q l' => rfl

theorem joinSep_append_single (sep : PyStr) :
    ∀ (l : List PyStr) (p : PyStr), l ≠ [] →
    joinSep sep (l ++ [p]) = joinSep sep l ++ sep ++ p := by
  intro l
  induction l with
  | nil => intro p h; exact absurd rfl h
  | cons q l' ih =>
      intro p _
      cases l' with
      | nil => rfl
      | cons x xs =>
          rw [List.cons_append, joinSep_cons sep q ((x :: xs) ++ [p])
            (by simp), ih p (by simp),
            joinSep_cons sep q (x :: xs) (by simp)]
          simp [List.append_assoc]

theorem joinSep_merge (sep a b : PyStr) (l : List PyStr) :
    joinSep sep ((a ++ sep ++ b) :: l)
      = a ++ sep ++ joinSep sep (b :: l) := by
  cases l with
  | nil => rfl
  | cons x xs =>
      rw [joinSep_cons sep _ (x :: xs) (by simp),
        joinSep_cons sep b (x :: xs) (by simp)]
      simp [List.append_assoc]

theorem headWs_append_left (p t : PyStr) (h : p ≠ []) :
    headWs (p ++ t) = headWs p := by
  cases p with
  | nil => exact absurd rfl h
  | cons c r => rfl

theorem joinSep_good :
    ∀ (g : List PyStr), g ≠ [] → (∀ p ∈ g, goodPara p) →
    joinSep paraSep g ≠ [] ∧ headWs (joinSep paraSep g) = false
      ∧ headWs (joinSep paraSep g).reverse = false := by
  intro g
  induction g with
  | nil => intro h _; exact absurd rfl h
  | cons p g' ih =>
      intro _ hall
      have hp := hall p (List.mem_cons_self _ _)
      cases g' with
      | nil => exact ⟨hp.1, hp.2.1, hp.2.2⟩
      | cons q g'' =>
          obtain ⟨hJne, hJh, hJr⟩ := ih (by simp)
            (fun x hx => hall x (List.mem_cons_of_mem _ hx))
          rw [joinSep_cons paraSep p (q :: g'') (by simp)]
          refine ⟨by simp [hp.1], ?_, ?_⟩
          · rw [List.append_assoc, headWs_append_left p _ hp.1]
            exact hp.2.1
          · rw [List.reverse_append,
              headWs_append_left _ _ (by simp [hJne])]
            exact hJr

theorem pstrip_goodJoin (cur : PyStr) (h : goodJoin cur) :
    pstrip cur = cur ∧ cur ≠ [] := by
  obtain ⟨g, hgne, hgood, rfl⟩ := h
  obtain ⟨hne, hh, hr⟩ := joinSep_good g hgne hgood
  exact ⟨pstrip_eq_self _ hh hr, hne⟩

theorem goodJoin_single (p : PyStr) (hp : goodPara p) : goodJoin p :=
  ⟨[p], by simp, by simpa using hp, rfl⟩

theorem goodJoin_extend (cur p : PyStr) (hc : goodJoin cur)
    (hp : goodPara p) : goodJoin (cur ++ paraSep ++ p) := by
  obtain ⟨g, hgne, hgood, rfl⟩ := hc
  refine ⟨g ++ [p], by simp, ?_, ?_⟩
  · intro x hx
    rcases List.mem_append.1 hx with hx1 | hx2
    · exact hgood x hx1
    · rw [List.mem_singleton.1 hx2]
      exact hp
  · rw [joinSep_append_single paraSep g p hgne]

theorem paraLoop_ne_nil (maxSize overlap : Nat) :
    ∀ (ps : List PyStr) (cur : PyStr) (start idx : Nat), cur ≠ [] →
    paraLoop maxSize overlap ps cur start idx ≠ [] := by
  intro ps
  induction ps with
  | nil =>
      intro cur start idx h
      unfold paraLoop
      rw [if_neg (by simp [List.isEmpty_iff, h])]
      simp
  | cons p ps' ih =>
      intro cur start idx h
      have hemp : cur.isEmpty = false := by
        cases hx : cur.isEmpty
        · rfl
        · exact absurd (List.isEmpty_iff.1 hx) h
      unfold paraLoop
      split
      · simp
      · rw [if_neg (by simp [hemp])]
        exact ih _ _ _ (by simp [h])

theorem paraLoop_small (maxSize : Nat) :
    ∀ (ps : List PyStr) (cur : PyStr) (start idx : Nat),
    (∀ p ∈ ps, p.length ≤ maxSize) → cur.length ≤ maxSize →
    ∀ c ∈ paraLoop maxSize 0 ps cur start idx,
      c.content.length ≤ maxSize := by
  intro ps
  induction ps with
  | nil =>
      intro cur start idx _ hcur c hc
      unfold paraLoop at hc
      split at hc
      · simp at hc
      · rw [List.mem_singleton] at hc
        subst hc
        exact le_trans (pstrip_length_le cur) hcur
  | cons p ps' ih =>
      intro cur start idx hps hcur c hc
      unfold paraLoop at hc
      split at hc
      · split at hc
        · rename_i hcontr
          simp at hcontr
        · rcases List.mem_cons.1 hc with rfl | hc2
          · exact le_trans (pstrip_length_le cur) hcur
          · exact ih p _ _ (fun x hx => hps x (List.mem_cons_of_mem _ hx))
              (hps p (List.mem_cons_self _ _)) c hc2
      · rename_i hcond
        apply ih _ _ _ (fun x hx => hps x (List.mem_cons_of_mem _ hx))
          _ c hc
        by_cases he : cur.isEmpty = true
        · rw [if_pos he]
          exact hps p (List.mem_cons_self _ _)
        · rw [if_neg he]
          have hlen : ¬(cur.length + 2 + p.length > maxSize) := by
            intro hgt
            apply hcond
            simp [he, hgt]
          simp only [List.length_append, paraSep, List.length_cons,
            List.length_nil]
          omega

/-- Reconstruction invariant of the paragraph loop at `overlap = 0`:
joining the emitted contents with blank lines equals joining the
accumulator and the remaining paragraphs. -/
theorem paraLoop_join (maxSize : Nat) :
    ∀ (ps : List PyStr) (cur : PyStr) (start idx : Nat),
    (∀ p ∈ ps, goodPara p) → goodJoin cur →
    joinSep paraSep
        ((paraLoop maxSize 0 ps cur start idx).map TextChunk.content)
      = joinSep paraSep (cur :: ps) := by
  intro ps
  induction ps with
  | nil =>
      intro cur start idx _ hcur
      obtain ⟨hstrip, hne⟩ := pstrip_goodJoin cur hcur
      unfold paraLoop
      rw [if_neg (by simp [List.isEmpty_iff, hne])]
      simp only [List.map_cons, List.map_nil]
      rw [hstrip]
  | cons p ps' ih =>
      intro cur start idx hps hcur
      obtain ⟨hstrip, hne⟩ := pstrip_goodJoin cur hcur
      have hemp : cur.isEmpty = false := by
        cases hx : cur.isEmpty
        · rfl
        · exact absurd (List.isEmpty_iff.1 hx) hne
      have hp : goodPara p := hps p (List.mem_cons_self _ _)
      have hps' : ∀ x ∈ ps', goodPara x :=
        fun x hx => hps x (List.mem_cons_of_mem _ hx)
      unfold paraLoop
      by_cases hover : cur.length + 2 + p.length > maxSize
      · rw [if_pos (by simp [hemp, hover])]
        split
        · rename_i hcontr
          simp at hcontr
        simp only [List.map_cons]
        rw [hstrip]
        have hrecne : paraLoop maxSize 0 ps' p (start + cur.length)
            (idx + 1) ≠ [] :=
          paraLoop_ne_nil maxSize 0 ps' p _ _ hp.1
        rw [joinSep_cons paraSep cur _
            (by simpa using hrecne),
          ih p _ _ hps' (goodJoin_single p hp),
          joinSep_cons paraSep cur (p :: ps') (by simp)]
      · rw [if_neg (by simp [hemp, hover])]
        rw [if_neg (by simp [hemp])]
        rw [ih (cur ++ paraSep ++ p) start idx hps'
            (goodJoin_extend cur p hcur hp)]
        rw [joinSep_merge, joinSep_cons paraSep cur (p :: ps') (by simp)]

end Rag

open Rag in
/-- C8 counterexample: concatenating chunk contents does not reconstruct
the original text even when there is a single chunk and no overlap
region at all — chunking normalizes paragraph whitespace.  The text
"a\n\n\n\nb" yields the single chunk "a\n\nb". -/
theorem C8_chunk_reconstruction_counterexample :
    ((chunk_text (ofStr "a\n\n\n\nb") 1000 100).map
        TextChunk.content).flatten ≠ ofStr "a\n\n\n\nb"
    ∧ (chunk_text (ofStr "a\n\n\n\nb") 1000 100).map TextChunk.content
      = [ofStr "a\n\nb"] := by
  constructor
  · decide
  · decide

open Rag in
/-- C8 (amended): chunking reconstructs the whitespace-normalized text,
not the original text: when `overlap = 0` and every paragraph fits in
`max_chunk_size`, joining the chunk contents with blank-line separators
equals the input's paragraphs (stripped, with empty paragraphs dropped)
joined by single blank lines.  Exact reconstruction of the original text
fails in general because paragraph splitting collapses whitespace, and
with `overlap > 0` a chunk's leading overlap region can be partially
consumed by stripping, making "ignoring the overlap" ill-defined. -/
theorem C8_chunk_reconstruction_amended (text : PyStr) (maxSize : Nat)
    (hp : ∀ p ∈ paragraphs text, p.length ≤ maxSize) :
    joinSep paraSep ((chunk_text text maxSize 0).map TextChunk.content)
      = joinSep paraSep (paragraphs text) := by
  unfold chunk_text
  split
  · rename_i hempty
    have htext : pstrip text = [] := List.isEmpty_iff.1 hempty
    have hparas : paragraphs text = [] := by
      unfold paragraphs
      rw [htext]
      rfl
    rw [hparas]
    rfl
  · have hsmall : ∀ c ∈ paraChunks text maxSize 0,
        c.content.length ≤ maxSize := by
      intro c hc
      exact paraLoop_small maxSize (paragraphs text) [] 0 0 hp
        (by simp) c hc
    have hid : ((paraChunks text maxSize 0).map
        (splitOversized maxSize)).flatten = paraChunks text maxSize 0 := by
      apply flatten_map_id
      intro c hc
      unfold splitOversized
      rw [if_pos (hsmall c hc)]
    rw [hid]
    unfold paraChunks
    cases hpar : paragraphs text with
    | nil => rfl
    | cons p ps =>
        have hgood := paragraphs_good text
        rw [hpar] at hgood
        unfold paraLoop
        rw [if_neg (by simp)]
        rw [if_pos (show ([] : PyStr).isEmpty = true from rfl)]
        rw [paraLoop_join maxSize ps p 0 0
            (fun x hx => hgood x (List.mem_cons_of_mem _ hx))
            (goodJoin_single p (hgood p (List.mem_cons_self _ _)))]

open Rag in
/-- Witness for the amended C8: a two-paragraph text with messy blank
lines is reconstructed in its normalized form. -/
theorem C8_chunk_reconstruction_amended_witness :
    joinSep paraSep
        ((chunk_text (ofStr "Alpha beta.\n\n\n\nGamma delta.") 100 0).map
          TextChunk.content)
      = joinSep paraSep
          (paragraphs (ofStr "Alpha beta.\n\n\n\nGamma delta.")) :=
  C8_chunk_reconstruction_amended
    (ofStr "Alpha beta.\n\n\n\nGamma delta.") 100 (by decide)

open Backend in
/-- Witness for C10 at a concrete store: an empty store, a first request
scoped to (exam "JEE", subject "phys", chapter "ch7") and a second
request scoped to (exam "NEET", subject "chem", chapter "ch7") — the
second call reuses session id "sid1". -/
theorem C10_lookup_ignores_exam_subject_witness :
    (get_or_create_session 1
        (get_or_create_session 0 ⟨[], []⟩ "u1" "JEE" "phys" "ch7" "E" "S" "C"
          "sid1").1
        "u1" "NEET" "chem" "ch7" "E2" "S2" "C2" "sid2").2 = "sid1" :=
  (C10_lookup_ignores_exam_subject 0 1 ⟨[], []⟩ "u1" "ch7" "JEE" "phys"
    "NEET" "chem" "E" "S" "C" "E2" "S2" "C2" "sid1" "sid2" (by decide)).2.1

end AiTutor
